import Mathlib

/-!
# ghq `get` command: fetch orchestration and repository lookup

A shallow embedding of `cmd_get.go`: the input stream (`sliceScanner` and the
`scanner` interface), the fetch loop of `doGet` in its sequential and parallel
modes, and the repository locator `look`.

Conventions of the embedding:

* Go `int` counters (`sliceScanner.index`, `argCnt`) are mathematical integers;
  they only count calls of `Scan`, one per target.
* A Go `error` is a value of `GoError`; `nil` is `none : Option GoError`.
* A nil-able pointer `*LocalRepository` is an `Option LocalRepository`.
* Collaborators that live outside `cmd_get.go` (the fetch unit `g.get`, the
  git configuration lookup, standard input, the directory walk, URL parsing,
  `os.Stat`, the `%q` verb of `fmt`) are parameters, quantified over in the
  theorems.
-/

namespace Ghq

/-! ## Data model -/

/-- Go `error` values: `plain` is built by `errors.New` or by `fmt.Errorf`
without `%w`; `wrap` is built by `fmt.Errorf` with `%w`, and remembers the
error it wraps (the one `errors.Unwrap` gives back). -/
inductive GoError where
  | plain (msg : String)
  | wrap (msg : String) (cause : GoError)
  deriving DecidableEq, Repr

/-- The `Error()` method: the message of an error. -/
def GoError.Error : GoError → String
  | .plain msg => msg
  | .wrap msg _ => msg

/-- The `Unwrap()` of an error: the wrapped cause, if any. -/
def GoError.Unwrap : GoError → Option GoError
  | .plain _ => none
  | .wrap _ cause => some cause

/-- One on-disk repository: absolute path, path relative to the managed root,
and the decomposed path segments. -/
structure LocalRepository where
  FullPath : String
  RelPath : String
  PathParts : List String
  deriving DecidableEq, Repr

/-- The result of one fetch: the local repository it resolved to, or nil. -/
structure getInfo where
  localRepository : Option LocalRepository
  deriving DecidableEq, Repr

/-- The fetch configuration held by the fetch unit. -/
structure getter where
  update : Bool
  shallow : Bool
  ssh : Bool
  vcs : String
  silent : Bool
  branch : String
  recursive : Bool
  bare : Bool
  deriving DecidableEq, Repr

/-! ## Input stream -/

/-- The argument variant of the input stream: a slice and a cursor. -/
structure sliceScanner where
  slice : List String
  index : Int
  deriving DecidableEq, Repr

/-- `Scan`: `s.index++; return s.index <= len(s.slice)`. Returns the advanced
scanner and the reported boolean. -/
def sliceScanner.Scan (s : sliceScanner) : sliceScanner × Bool :=
  let s1 : sliceScanner := { s with index := s.index + 1 }
  (s1, decide (s1.index ≤ (s1.slice.length : Int)))

/-- `Text`: `return s.slice[s.index-1]`; `none` is the index-out-of-range
run-time panic of Go. -/
def sliceScanner.Text (s : sliceScanner) : Option String :=
  let i : Int := s.index - 1
  if 0 ≤ i then s.slice[i.toNat]? else none

/-- `Err`: `return nil`. -/
def sliceScanner.Err (_s : sliceScanner) : Option GoError :=
  none

/-- The standard-input variant, `bufio.NewScanner(os.Stdin)`, as the lines the
reader will deliver, the line last delivered, and the read error (if any) the
reader hits after the last of these lines. The error is only reported by `Err`
once `Scan` has returned false. -/
structure bufioScanner where
  lines : List String
  token : String
  failure : Option GoError
  stopped : Bool
  deriving DecidableEq, Repr

/-- `Scan` of `bufio.Scanner`: delivers the next line, or stops. -/
def bufioScanner.Scan (b : bufioScanner) : bufioScanner × Bool :=
  if b.stopped then (b, false)
  else
    match b.lines with
    | [] => ({ b with token := "", stopped := true }, false)
    | l :: rest => ({ b with lines := rest, token := l }, true)

/-- `Text` of `bufio.Scanner`: the line delivered by the last `Scan`. -/
def bufioScanner.Text (b : bufioScanner) : Option String :=
  some b.token

/-- `Err` of `bufio.Scanner`: the first non-EOF error met by the scanner. -/
def bufioScanner.Err (b : bufioScanner) : Option GoError :=
  if b.stopped then b.failure else none

/-- The `scanner` interface with its two implementations in `doGet`. -/
inductive scanner where
  | ofSlice (s : sliceScanner)
  | ofStdin (b : bufioScanner)
  deriving DecidableEq, Repr

/-- Interface call `scr.Scan()`. -/
def scanner.Scan : scanner → scanner × Bool
  | .ofSlice s => ((s.Scan).1 |> scanner.ofSlice, (s.Scan).2)
  | .ofStdin b => ((b.Scan).1 |> scanner.ofStdin, (b.Scan).2)

/-- Interface call `scr.Text()`. -/
def scanner.Text : scanner → Option String
  | .ofSlice s => s.Text
  | .ofStdin b => b.Text

/-- Interface call `scr.Err()`. -/
def scanner.Err : scanner → Option GoError
  | .ofSlice s => s.Err
  | .ofStdin b => b.Err

/-- The scanner after `k` calls of `Scan`. -/
def sliceScanner.afterScans (s : sliceScanner) : Nat → sliceScanner
  | 0 => s
  | k + 1 => ((s.afterScans k).Scan).1

/-- A fresh scanner over a slice, `&sliceScanner{slice: args}`. -/
def sliceScanner.fresh (slice : List String) : sliceScanner :=
  { slice := slice, index := 0 }

/-! ## Collaborators of `doGet` -/

/-- The command-line context `c *cli.Context`: the arguments and the flags
that `doGet` reads. -/
structure Context where
  args : List String
  look : Bool
  parallel : Bool
  update : Bool
  shallow : Bool
  p : Bool
  vcs : String
  silent : Bool
  branch : String
  noRecursive : Bool
  bare : Bool
  deriving DecidableEq, Repr

/-- What `gitconfig.Get("ghq.protocol")` returns: a value with a nil error, a
not-found error (`gitconfig.IsNotFound(err)`), or another error. -/
inductive GitconfigResult where
  | value (v : String)
  | notFound
  | failed (e : GoError)
  deriving DecidableEq, Repr

/-- The string returned by the lookup (empty when there is an error). -/
def GitconfigResult.protocol : GitconfigResult → String
  | .value v => v
  | .notFound => ""
  | .failed _ => ""

/-- The collaborators of `doGet` outside `cmd_get.go`. `get` is the fetch unit
`g.get(target)`, returning both of its Go results; `quote` is the `%q` verb of
`fmt` on a string. -/
structure Collab where
  get : getter → String → getInfo × Option GoError
  gitconfigGet : GitconfigResult
  stdinIsTerminal : Bool
  stdinLines : List String
  stdinFailure : Option GoError
  quote : String → String

/-- How `doGet` ends: `return err` or `return nil`, the tail calls
`return look(firstArg, g.bare)` and `return lookByLocalRepository(repo)`, or a
run-time panic. -/
inductive Outcome where
  | ret (err : Option GoError)
  | look (name : String) (bare : Bool)
  | lookByLocalRepository (repo : LocalRepository)
  | panicked
  deriving DecidableEq, Repr

/-! ## The fetch orchestrator `doGet` as a transition system

The main goroutine and the goroutines started by `eg.Go` advance by steps; an
event names the goroutine that takes the next step. In sequential mode only the
main goroutine exists.

The variables `getInfo` and `err` of `doGet` are shared by the main goroutine
and the closures handed to `eg.Go`, without synchronisation, so every store to
and every read of them is a step of its own: at line 90 the store
`err = scr.Err()`, the test `err != nil` and the read of `err` for `fmt.Errorf`
are three steps of the main goroutine; at lines 79-80 the return of `g.get`, the
store to `getInfo`, the store to `err`, the test `err != nil` and the read of
`err` for `logger.Logf` are five steps of a goroutine. Lines 85-86 (sequential
mode, no goroutine exists) and lines 93-104 (every goroutine has finished) are
single steps. The error group has no limit set, so `eg.Go` never blocks, and
every function handed to it returns nil, so `eg.Wait()` returns nil once all
have finished. -/

/-- Control points of a goroutine started by `eg.Go`:
`spawned` (created, `g.get` not yet called), `running` (inside `g.get`),
`gotResult` (`g.get` has returned, nothing stored yet), `storedInfo` (`getInfo`
stored), `stored` (`err` stored, the test `err != nil` is next), `logging` (the
test found `err` non-nil, the call of `logger.Logf` is next), `returned` (the
closure has returned nil; the deferred receive from `sem` is pending),
`released` (token taken back from `sem`), `finished` (the error group has
counted the goroutine as done). -/
inductive TaskPc where
  | spawned
  | running
  | gotResult
  | storedInfo
  | stored
  | logging
  | returned
  | released
  | finished
  deriving DecidableEq, Repr

/-- A goroutine started by `eg.Go`, with the `target` its closure captured. -/
structure Task where
  target : String
  pc : TaskPc
  deriving DecidableEq, Repr

/-- Control points of the main goroutine: the loop head `scr.Scan()` (line 69),
the send `sem <- struct{}{}` (line 76), the call `eg.Go` (line 77), the store
`err = scr.Err()` (line 90), the test `err != nil` (line 90), the call of
`fmt.Errorf` with `err` (line 91), `eg.Wait()` with the post-run selection
(lines 93-104), and having returned. -/
inductive MainPc where
  | loopHead
  | semSend (target : String)
  | egGo (target : String)
  | errStore
  | errTest
  | errWrap
  | egWait
  | returned (o : Outcome)
  deriving DecidableEq, Repr

/-- The variables of a run of `doGet`, with two instrumentation fields:
`calls` records the targets on which `g.get` was invoked, in invocation order,
and `logged` the arguments `target` and `err` of each call
`logger.Logf("error", "failed to get %q: %s", target, err)`. `sem` is the number
of tokens in the channel `sem`. -/
structure State where
  scr : scanner
  g : getter
  firstArg : String
  argCnt : Int
  getInfo : getInfo
  err : Option GoError
  sem : Nat
  tasks : List Task
  pc : MainPc
  calls : List String
  logged : List (String × Option GoError)
  deriving DecidableEq, Repr

/-- Capacity of the channel `sem := make(chan struct{}, 6)`. -/
def semCap : Nat := 6

/-- The getter built at lines 28-49. -/
def mkGetter (c : Context) (env : Collab) : getter :=
  let g0 : getter :=
    { update := c.update, shallow := c.shallow, ssh := c.p, vcs := c.vcs,
      silent := c.silent, branch := c.branch, recursive := !c.noRecursive,
      bare := c.bare }
  let g1 : getter := if c.parallel then { g0 with silent := true } else g0
  if env.gitconfigGet.protocol = "ssh" then { g1 with ssh := true } else g1

/-- The state at the loop head, before the first `scr.Scan()`. -/
def initState (g : getter) (scr : scanner) : State :=
  { scr := scr, g := g, firstArg := "", argCnt := 0, getInfo := { localRepository := none },
    err := none, sem := 0, tasks := [], pc := .loopHead, calls := [], logged := [] }

/-- Lines 22-68: build the getter, read the git configuration, choose the
input stream. An early return is an `Except.error`. -/
def start (c : Context) (env : Collab) : Except Outcome State :=
  match env.gitconfigGet with
  | .failed e => .error (.ret (some e))
  | _ =>
    if c.args.length > 0 then
      .ok (initState (mkGetter c env) (.ofSlice (sliceScanner.fresh c.args)))
    else if env.stdinIsTerminal then
      .error (.ret (some (.plain
        "no target args specified. see `ghq get -h` for more details")))
    else
      .ok (initState (mkGetter c env)
        (.ofStdin { lines := env.stdinLines, token := "", failure := env.stdinFailure,
                    stopped := false }))

/-- `fmt.Errorf("failed to get %q: %w", target, err)`. -/
def failedToGet (env : Collab) (target : String) (err : GoError) : GoError :=
  .wrap ("failed to get " ++ env.quote target ++ ": " ++ err.Error) err

/-- `fmt.Errorf("error occurred while reading input: %w", err)` on the value
read from `err`. With a nil operand `fmt` renders the verb as `%!w(<nil>)` and
the error wraps nothing. -/
def readingInputError : Option GoError → GoError
  | some err => .wrap ("error occurred while reading input: " ++ err.Error) err
  | none => .plain "error occurred while reading input: %!w(<nil>)"

/-- Lines 96-104: the post-run selection. -/
def postRun (c : Context) (s : State) : Outcome :=
  if c.look then
    if s.argCnt > 1 ∧ s.firstArg ≠ "" then .look s.firstArg s.g.bare
    else if s.argCnt = 1 then
      match s.getInfo.localRepository with
      | some repo => .lookByLocalRepository repo
      | none => .ret none
    else .ret none
  else .ret none

/-- Every goroutine of the error group has finished. -/
def allFinished (tasks : List Task) : Bool :=
  tasks.all (fun t => t.pc == .finished)

/-- One step of the main goroutine; `none` when it is blocked (send on a full
`sem`, `eg.Wait()` with a goroutine still to finish) or has returned. -/
def stepMain (c : Context) (env : Collab) (s : State) : Option State :=
  match s.pc with
  | .loopHead =>
    let r := s.scr.Scan
    if r.2 then
      match r.1.Text with
      | none => some { s with scr := r.1, pc := .returned .panicked }
      | some target =>
        let s1 : State :=
          { s with scr := r.1,
                   firstArg := if s.firstArg = "" then target else s.firstArg,
                   argCnt := s.argCnt + 1 }
        if c.parallel then some { s1 with pc := .semSend target }
        else
          let res := env.get s.g target
          let s2 : State :=
            { s1 with getInfo := res.1, err := res.2, calls := s1.calls ++ [target] }
          match res.2 with
          | some e => some { s2 with pc := .returned (.ret (some (failedToGet env target e))) }
          | none => some s2
    else some { s with scr := r.1, pc := .errStore }
  | .semSend target =>
    if s.sem < semCap then some { s with sem := s.sem + 1, pc := .egGo target } else none
  | .egGo target =>
    some { s with tasks := s.tasks ++ [{ target := target, pc := .spawned }], pc := .loopHead }
  | .errStore =>
    some { s with err := s.scr.Err, pc := .errTest }
  | .errTest =>
    match s.err with
    | some _ => some { s with pc := .errWrap }
    | none => some { s with pc := .egWait }
  | .errWrap =>
    some { s with pc := .returned (.ret (some (readingInputError s.err))) }
  | .egWait =>
    if allFinished s.tasks then
      let s1 : State := { s with err := none }
      some { s1 with pc := .returned (postRun c s1) }
    else none
  | .returned _ => none

/-- One step of the goroutine number `i` of the error group; `none` when there
is no such goroutine, when it has finished, or when it is blocked. -/
def stepTask (env : Collab) (i : Nat) (s : State) : Option State :=
  match s.tasks[i]? with
  | none => none
  | some t =>
    match t.pc with
    | .spawned =>
      some { s with tasks := s.tasks.set i { t with pc := .running },
                    calls := s.calls ++ [t.target] }
    | .running =>
      some { s with tasks := s.tasks.set i { t with pc := .gotResult } }
    | .gotResult =>
      some { s with tasks := s.tasks.set i { t with pc := .storedInfo },
                    getInfo := (env.get s.g t.target).1 }
    | .storedInfo =>
      some { s with tasks := s.tasks.set i { t with pc := .stored },
                    err := (env.get s.g t.target).2 }
    | .stored =>
      match s.err with
      | some _ => some { s with tasks := s.tasks.set i { t with pc := .logging } }
      | none => some { s with tasks := s.tasks.set i { t with pc := .returned } }
    | .logging =>
      some { s with tasks := s.tasks.set i { t with pc := .returned },
                    logged := s.logged ++ [(t.target, s.err)] }
    | .returned =>
      if 0 < s.sem then
        some { s with tasks := s.tasks.set i { t with pc := .released }, sem := s.sem - 1 }
      else none
    | .released =>
      some { s with tasks := s.tasks.set i { t with pc := .finished } }
    | .finished => none

/-- A scheduling event: which goroutine takes the next step. -/
inductive Event where
  | main
  | task (i : Nat)
  deriving DecidableEq, Repr

/-- One step of the run under a scheduling event. -/
def step (c : Context) (env : Collab) (ev : Event) (s : State) : Option State :=
  match ev with
  | .main => stepMain c env s
  | .task i => stepTask env i s

/-- The state reached from `s` by a schedule, `none` when some event of the
schedule is not enabled. -/
def exec (c : Context) (env : Collab) : List Event → State → Option State
  | [], s => some s
  | ev :: evs, s =>
    match step c env ev s with
    | none => none
    | some s1 => exec c env evs s1

/-- The states a run of `doGet` can be in: those reached from the state at the
loop head by some schedule. -/
def Reachable (c : Context) (env : Collab) (s : State) : Prop :=
  ∃ s0 evs, start c env = .ok s0 ∧ exec c env evs s0 = some s

/-- Number of `g.get` invocations in flight: started and not yet returned. -/
def inFlight (s : State) : Nat :=
  s.tasks.countP (fun t => t.pc == .running)

/-- The main goroutine alone, for at most `n` steps: it stops early when it is
blocked or has returned. -/
def runMain (c : Context) (env : Collab) : Nat → State → State
  | 0, s => s
  | n + 1, s =>
    match stepMain c env s with
    | none => s
    | some s1 => runMain c env n s1

/-- Targets the scanner can still deliver. -/
def scanner.pending : scanner → Nat
  | .ofSlice s => (s.slice.length - s.index).toNat
  | .ofStdin b => if b.stopped then 0 else b.lines.length

/-- What a sequential run of `doGet` leaves behind: the value it returns and
the log of `g.get` invocations. -/
structure Run where
  outcome : Outcome
  calls : List String
  deriving DecidableEq, Repr

/-- The function `doGet` in sequential mode (`parallel` false): the main goroutine
runs alone, one step per target and four more for the last `Scan`, the store and
the test of line 90, and `eg.Wait()`. `none` if it had not returned by then. -/
def doGet (c : Context) (env : Collab) : Option Run :=
  match start c env with
  | .error o => some { outcome := o, calls := [] }
  | .ok s0 =>
    let s := runMain c env (s0.scr.pending + 4) s0
    match s.pc with
    | .returned o => some { outcome := o, calls := s.calls }
    | _ => none

/-! ## The repository locator `look` -/

/-- A parsed remote URL (`*url.URL`). -/
structure URL where
  Scheme : String
  Host : String
  Path : String
  deriving DecidableEq, Repr

/-- The collaborators of `look` outside `cmd_get.go`: the directory walk (the
repositories handed to the callback, in the order their callbacks run, and the
error the walk returns), the predicate `repo.Matches(name)`, URL parsing,
the local-path projection, and whether `os.Stat(path)` returns a nil error. -/
structure LookEnv where
  walked : List LocalRepository
  walkErr : Option GoError
  Matches : LocalRepository → String → Bool
  newURL : String → Bool → Bool → Except GoError URL
  LocalRepositoryFromURL : URL → Bool → Except GoError LocalRepository
  statOk : String → Bool

/-- How `look` ends: it returns an error without running a shell, or it ends in
`return lookByLocalRepository(repo)`, which launches the shell in `repo`. -/
inductive LookOutcome where
  | fail (e : GoError)
  | shell (repo : LocalRepository)
  deriving DecidableEq, Repr

/-- The header line of the ambiguity error. -/
def ambiguityHeader : String :=
  "More than one repositories are found; Try more precise name\n"

/-- `fmt.Sprintf("       - %s\n", strings.Join(repo.PathParts, "/"))`. -/
def ambiguityLine (repo : LocalRepository) : String :=
  "       - " ++ String.intercalate "/" repo.PathParts ++ "\n"

/-- The ambiguity error built in the default case of the switch: the header,
then one line per repository found. -/
def ambiguityError (reposFound : List LocalRepository) : GoError :=
  .plain (reposFound.foldl (fun b repo => b ++ ambiguityLine repo) ambiguityHeader)

/-- Lines 147-155: the match set collected by the walk callback. -/
def matchSet (env : LookEnv) (name : String) : List LocalRepository :=
  env.walked.filter (fun repo => env.Matches repo name)

/-- Lines 157-170: the URL-derived fallback, tried when the match set is empty.
An `Except.error` is the early `return err`. -/
def fallback (env : LookEnv) (name : String) (bare : Bool)
    (reposFound : List LocalRepository) : Except GoError (List LocalRepository) :=
  if reposFound.length = 0 then
    match env.newURL name false false with
    | .error _ => .ok reposFound
    | .ok url =>
      match env.LocalRepositoryFromURL url bare with
      | .error e => .error e
      | .ok repo =>
        if env.statOk repo.FullPath then .ok (reposFound ++ [repo]) else .ok reposFound
  else .ok reposFound

/-- Lines 172-184: the switch on the number of repositories found. -/
def resolve (reposFound : List LocalRepository) : LookOutcome :=
  match reposFound with
  | [] => .fail (.plain "no repository found")
  | [repo] => .shell repo
  | _ => .fail (ambiguityError reposFound)

/-- The function `look(name, bare)`. -/
def look (env : LookEnv) (name : String) (bare : Bool) : LookOutcome :=
  match env.walkErr with
  | some e => .fail e
  | none =>
    match fallback env name bare (matchSet env name) with
    | .error e => .fail e
    | .ok reposFound => resolve reposFound

/-- Modelled from the spec: the match predicate `LocalRepository.Matches`, which
is not part of `cmd_get.go`. A repository matches `name` when `name` equals its
slash-joined path or a slash-joined (non-empty) suffix of its path segments. -/
def LocalRepository.Matches (repo : LocalRepository) (name : String) : Bool :=
  (repo.PathParts.tails.filter (fun suf => suf ≠ [])).any
    (fun suf => String.intercalate "/" suf == name)

/-! ## Auxiliary notions used in the statements -/

/-- The scanner `scr`, in the state it has at a loop head, will deliver exactly
the targets `ts` and then report the end of the stream. -/
def scanner.Delivers : scanner → List String → Prop
  | .ofSlice s, ts => 0 ≤ s.index ∧ s.index ≤ s.slice.length ∧ ts = s.slice.drop s.index.toNat
  | .ofStdin b, ts => b.stopped = false ∧ ts = b.lines

/-- The error `scr.Err()` reports once the stream has ended. -/
def scanner.endErr : scanner → Option GoError
  | .ofSlice _ => none
  | .ofStdin b => b.failure

/-- The value of `firstArg` after the targets `ts` went through lines 71-73,
starting from the value `f`. -/
def pickFirst (f : String) (ts : List String) : String :=
  ts.foldl (fun acc t => if acc = "" then t else acc) f

/-- The targets of the input stream that `doGet` selects at lines 57-65. -/
def streamTargets (c : Context) (env : Collab) : List String :=
  if c.args.length > 0 then c.args else env.stdinLines

/-- At this control point the goroutine still holds the token the loop put into
`sem` for it: it has not yet run its deferred receive. -/
def TaskPc.holdsToken : TaskPc → Bool
  | .released => false
  | .finished => false
  | _ => true

/-- At this control point the goroutine has invoked `g.get`. -/
def TaskPc.started : TaskPc → Bool
  | .spawned => false
  | _ => true

/-- The goroutine still holds its token of `sem`. -/
def Task.holdsToken (t : Task) : Bool :=
  t.pc.holdsToken

/-- The goroutine has invoked `g.get`. -/
def Task.started (t : Task) : Bool :=
  t.pc.started

/-- Steps a goroutine of the error group has left, at most. -/
def TaskPc.stepsLeft : TaskPc → Nat
  | .spawned => 8
  | .running => 7
  | .gotResult => 6
  | .storedInfo => 5
  | .stored => 4
  | .logging => 3
  | .returned => 2
  | .released => 1
  | .finished => 0

/-- A bound on the steps the main goroutine and the goroutines it has still to
start have left. -/
def mainLeft (s : State) : Nat :=
  match s.pc with
  | .loopHead => 11 * s.scr.pending + 5
  | .semSend _ => 11 * s.scr.pending + 15
  | .egGo _ => 11 * s.scr.pending + 14
  | .errStore => 4
  | .errTest => 3
  | .errWrap => 1
  | .egWait => 1
  | .returned _ => 0

/-- A bound on the number of steps left in the whole run. -/
def stepsLeft (s : State) : Nat :=
  mainLeft s + (s.tasks.map (fun t => t.pc.stepsLeft)).sum

/-- The token accounting of the channel `sem`: its tokens are those of the
goroutines that have not yet released, plus the one just sent when the main
goroutine stands between the send and `eg.Go`; and the channel is never over
its capacity. -/
def SemInv (s : State) : Prop :=
  s.sem = s.tasks.countP Task.holdsToken + (match s.pc with | .egGo _ => 1 | _ => 0)
    ∧ s.sem ≤ semCap

/-- The targets consumed from the stream so far: one per goroutine started, and
the one the main goroutine holds between the loop head and `eg.Go`. -/
def consumed (s : State) : List String :=
  s.tasks.map Task.target ++ (match s.pc with | .semSend t => [t] | .egGo t => [t] | _ => [])

/-- The invariant of a parallel run over the stream targets `ts` whose scanner
reports `e0` at the end: the log of `g.get` invocations is a rearrangement of
the targets of the goroutines that have started; `firstArg` and `argCnt` follow
the consumed targets; the consumed targets and those still to be delivered make
up `ts`; and once `doGet` has returned, it returned either from line 91, with
the error built from the value read from `err`, or from the post-run
selection with every goroutine finished. -/
def ParInv (c : Context) (env : Collab) (ts : List String) (e0 : Option GoError)
    (s : State) : Prop :=
  s.g = mkGetter c env
  ∧ List.Perm s.calls ((s.tasks.filter Task.started).map Task.target)
  ∧ s.firstArg = pickFirst "" (consumed s)
  ∧ s.argCnt = (consumed s).length
  ∧ (match s.pc with
      | .loopHead => ∃ rest, s.scr.Delivers rest ∧ s.scr.endErr = e0 ∧ consumed s ++ rest = ts
      | .semSend _ => ∃ rest, s.scr.Delivers rest ∧ s.scr.endErr = e0 ∧ consumed s ++ rest = ts
      | .egGo _ => ∃ rest, s.scr.Delivers rest ∧ s.scr.endErr = e0 ∧ consumed s ++ rest = ts
      | .errStore => consumed s = ts ∧ s.scr.Err = e0
      | .errTest => consumed s = ts
      | .errWrap => consumed s = ts
      | .egWait => consumed s = ts
      | .returned o => consumed s = ts
          ∧ ((∃ e, o = .ret (some (readingInputError e)))
              ∨ (allFinished s.tasks = true ∧ o = postRun c s)))

/-- The states of a run in which the main goroutine goes through line 90 only
once every goroutine has finished, on a stream that ends without a read error:
at the test of line 90 nothing can overwrite the nil just stored, line 91 is
not reached, and a return is the return of the post-run selection. -/
def Quiet (c : Context) (s : State) : Prop :=
  match s.pc with
  | .errTest => allFinished s.tasks = true ∧ s.err = none
  | .errWrap => False
  | .returned o => o = postRun c s
  | _ => True

/-! ## Concrete inputs -/

/-- A context with the given arguments and the `parallel` and `look` flags, every
other flag at its default. -/
def ctxOf (args : List String) (parallelFlag lookFlag : Bool) : Context :=
  { args := args, look := lookFlag, parallel := parallelFlag, update := false,
    shallow := false, p := false, vcs := "", silent := false, branch := "",
    noRecursive := false, bare := false }

/-- A repository under the root `/ghq` with the given path segments. -/
def repoAt (parts : List String) : LocalRepository :=
  { FullPath := "/ghq/" ++ String.intercalate "/" parts,
    RelPath := String.intercalate "/" parts,
    PathParts := parts }

/-- Collaborators whose fetch fails on the target `"B"` and on the empty target,
and succeeds on every other target; standard input is a pipe that delivers the
line `"a"` and then a read error. -/
def envFailB : Collab :=
  { get := fun _ t =>
      if t = "B" ∨ t = "" then ({ localRepository := none }, some (.plain "boom"))
      else ({ localRepository := some (repoAt ["github.com", "x", t]) }, none),
    gitconfigGet := .notFound,
    stdinIsTerminal := false,
    stdinLines := ["a"],
    stdinFailure := some (.plain "read failure"),
    quote := fun t => "\"" ++ t ++ "\"" }

/-- Seven targets, one more than the capacity of `sem`. -/
def sevenTargets : List String := ["t1", "t2", "t3", "t4", "t5", "t6", "t7"]

/-- A schedule on seven targets: the loop starts six goroutines, each of them
enters `g.get`, and the loop reads the seventh target. -/
def busySchedule : List Event :=
  List.replicate 18 .main
    ++ [.task 0, .task 1, .task 2, .task 3, .task 4, .task 5] ++ [.main]

/-- The state after `busySchedule`: six fetches in flight, `sem` full, the main
goroutine blocked on the send for the seventh target. -/
def busyState : State :=
  { initState (mkGetter (ctxOf sevenTargets true false) envFailB)
      (.ofSlice { slice := sevenTargets, index := 7 }) with
    firstArg := "t1", argCnt := 7, sem := 6,
    tasks := (sevenTargets.take 6).map (fun t => { target := t, pc := .running }),
    pc := .semSend "t7",
    calls := sevenTargets.take 6 }

/-- A schedule on the targets `[A, B, C]` on which the store and the test of
line 90 are separated by a store of a goroutine: the loop starts the three
goroutines and meets the end of the stream; the goroutine of `B` calls `g.get`,
gets its failure back and stores `getInfo`; the main goroutine stores
`err = scr.Err()`, which is nil; the goroutine of `B` stores its failure into
`err`; the main goroutine tests `err != nil`, and returns at line 91. -/
def racySchedule : List Event :=
  List.replicate 10 .main
    ++ [.task 1, .task 1, .task 1] ++ [.main] ++ [.task 1] ++ [.main, .main]

/-- The state after `racySchedule`: `doGet` has returned the error of line 91,
built from the failure of `B`, with `g.get` invoked on `B` only and no
goroutine finished. -/
def racyState : State :=
  { initState (mkGetter (ctxOf ["A", "B", "C"] true false) envFailB)
      (.ofSlice { slice := ["A", "B", "C"], index := 4 }) with
    firstArg := "A", argCnt := 3, err := some (.plain "boom"), sem := 3,
    tasks := [{ target := "A", pc := .spawned }, { target := "B", pc := .stored },
              { target := "C", pc := .spawned }],
    pc := .returned (.ret (some (readingInputError (some (.plain "boom"))))),
    calls := ["B"] }

/-- A schedule on standard input delivering `a` and then a read error: the loop
starts the goroutine for `a`, which enters `g.get`; the loop then meets the end
of the stream and the main goroutine goes through lines 90 and 91. -/
def orphanSchedule : List Event :=
  [.main, .main, .main, .task 0, .main, .main, .main, .main]

/-- The state after `orphanSchedule`: `doGet` has returned the read error while
the fetch of `a` is still inside `g.get`. -/
def orphanState : State :=
  { initState (mkGetter (ctxOf [] true false) envFailB)
      (.ofStdin { lines := [], token := "", failure := some (.plain "read failure"),
                  stopped := true }) with
    firstArg := "a", argCnt := 1, err := some (.plain "read failure"), sem := 1,
    tasks := [{ target := "a", pc := .running }],
    pc := .returned (.ret (some (readingInputError (some (.plain "read failure"))))),
    calls := ["a"] }

/-- A schedule on two targets of which the first fetch fails and the second
succeeds: the loop starts both goroutines, each runs to its end in turn (the
first through `logger.Logf`), and the main goroutine goes through line 90 and
`eg.Wait()`. -/
def scheduleTwo : List Event :=
  List.replicate 6 .main ++ List.replicate 8 (.task 0) ++ List.replicate 7 (.task 1)
    ++ List.replicate 4 .main

/-- A schedule on two targets of which both fetches fail: as `scheduleTwo`, with
the second goroutine going through `logger.Logf` too. -/
def scheduleTwoFailing : List Event :=
  List.replicate 6 .main ++ List.replicate 8 (.task 0) ++ List.replicate 8 (.task 1)
    ++ List.replicate 4 .main

/-- The repository `github.com/x/a`. -/
def repoA : LocalRepository := repoAt ["github.com", "x", "a"]

/-- The repository `github.com/x/ab`. -/
def repoAB : LocalRepository := repoAt ["github.com", "x", "ab"]

/-- The repository `github.com/y/a`. -/
def repoYA : LocalRepository := repoAt ["github.com", "y", "a"]

/-- A lookup environment over the repositories `walked`, with the match
predicate of the spec, in which every name `n` parses as a URL (the repository
`n` of the user `u` on `github.com`), the projection is the repository under `/ghq`, and
only the walked repositories exist on disk. -/
def lookEnvOf (walked : List LocalRepository) : LookEnv :=
  { walked := walked,
    walkErr := none,
    Matches := LocalRepository.Matches,
    newURL := fun name _ _ =>
      .ok { Scheme := "https", Host := "github.com", Path := name },
    LocalRepositoryFromURL := fun url _ =>
      .ok (repoAt [url.Host, "u", url.Path]),
    statOk := fun path => walked.any (fun repo => repo.FullPath == path) }

/-- A lookup environment with no repository on disk in which the name parses as
a URL but the local-path projection fails. -/
def lookEnvProjectionFails : LookEnv :=
  { walked := [],
    walkErr := none,
    Matches := LocalRepository.Matches,
    newURL := fun name _ _ =>
      .ok { Scheme := "https", Host := "github.com", Path := name },
    LocalRepositoryFromURL := fun _ _ => .error (.plain "no root directory"),
    statOk := fun _ => false }

/-! ## Theorems: input stream -/

theorem sliceScanner.afterScans_slice (s : sliceScanner) (k : Nat) :
    (s.afterScans k).slice = s.slice := by
  induction k with
  | zero => rfl
  | succ k ih => simpa [sliceScanner.afterScans, sliceScanner.Scan] using ih

theorem sliceScanner.afterScans_index (s : sliceScanner) (k : Nat) :
    (s.afterScans k).index = s.index + k := by
  induction k with
  | zero => simp [sliceScanner.afterScans]
  | succ k ih =>
    simp only [sliceScanner.afterScans, sliceScanner.Scan, ih]
    push_cast
    ring

/-- C10: for every slice, the (k+1)-th `Scan` of a fresh `sliceScanner` reports
true exactly when `k + 1 ≤ len(slice)` (so the first `n` calls report true and
every later call false); after a successful (k+1)-th `Scan`, `Text` returns the
element at position `k` of the slice, in bounds; and `Err` is nil before and
after every call. -/
theorem sliceScanner_stream (slice : List String) (k : Nat) :
    (((sliceScanner.fresh slice).afterScans k).Scan).2 = decide (k + 1 ≤ slice.length)
    ∧ (∀ h : k < slice.length,
        ((((sliceScanner.fresh slice).afterScans k).Scan).1).Text = some (slice.get ⟨k, h⟩))
    ∧ ((sliceScanner.fresh slice).afterScans k).Err = none
    ∧ ((((sliceScanner.fresh slice).afterScans k).Scan).1).Err = none := by
  have hi := sliceScanner.afterScans_index (sliceScanner.fresh slice) k
  have hs := sliceScanner.afterScans_slice (sliceScanner.fresh slice) k
  simp only [sliceScanner.fresh] at hi hs
  refine ⟨?_, ?_, rfl, rfl⟩
  · simp only [sliceScanner.Scan, sliceScanner.fresh, hi, hs]
    simp only [zero_add]
    congr 1
    apply propext
    constructor <;> intro h <;> omega
  · intro h
    simp only [sliceScanner.Scan, sliceScanner.Text, sliceScanner.fresh, hi, hs]
    have h0 : (0 : Int) ≤ 0 + (k : Int) + 1 - 1 := by omega
    have h1 : ((0 : Int) + (k : Int) + 1 - 1).toNat = k := by omega
    rw [if_pos h0, h1]
    simp [List.getElem?_eq_getElem h]

/-- Witness for C10 on the slice `["a", "b"]`: the second `Scan` succeeds and
`Text` then gives `"b"`. -/
theorem sliceScanner_stream_witness :
    ((((sliceScanner.fresh ["a", "b"]).afterScans 1).Scan).1).Text = some "b" :=
  (sliceScanner_stream ["a", "b"] 1).2.1 (by decide)

/-! ## Lemmas: what a scanner delivers -/

theorem scanner.Delivers.cons_step {scr : scanner} {t : String} {ts : List String}
    (h : scr.Delivers (t :: ts)) :
    (scr.Scan).2 = true ∧ ((scr.Scan).1).Text = some t ∧ ((scr.Scan).1).Delivers ts := by
  cases scr with
  | ofSlice s =>
    obtain ⟨h0, h1, h2⟩ := h
    have hlt : s.index.toNat < s.slice.length := by
      by_contra hge
      rw [List.drop_eq_nil_of_le (by omega)] at h2
      cases h2
    have hget : s.slice[s.index.toNat]? = some t := by
      have := congrArg (fun l => l[0]?) h2
      simp only [List.getElem?_cons_zero, List.getElem?_drop] at this
      simpa using this.symm
    refine ⟨?_, ?_, ?_⟩
    · simp only [scanner.Scan, sliceScanner.Scan, decide_eq_true_eq]
      omega
    · simp only [scanner.Scan, scanner.Text, sliceScanner.Scan, sliceScanner.Text]
      have h3 : (0 : Int) ≤ s.index + 1 - 1 := by omega
      have h4 : (s.index + 1 - 1).toNat = s.index.toNat := by omega
      rw [if_pos h3, h4, hget]
    · refine ⟨?_, ?_, ?_⟩
      · simp only [scanner.Scan, sliceScanner.Scan]
        omega
      · simp only [scanner.Scan, sliceScanner.Scan]
        omega
      · simp only [scanner.Scan, sliceScanner.Scan]
        have h5 : (s.index + 1).toNat = s.index.toNat + 1 := by omega
        rw [h5, ← List.drop_drop, ← h2]
        rfl
  | ofStdin b =>
    obtain ⟨h0, h1⟩ := h
    refine ⟨?_, ?_, ?_⟩
    · simp [scanner.Scan, bufioScanner.Scan, h0, ← h1]
    · simp [scanner.Scan, scanner.Text, bufioScanner.Scan, bufioScanner.Text, h0, ← h1]
    · simp [scanner.Scan, bufioScanner.Scan, h0, ← h1, scanner.Delivers]

theorem scanner.Delivers.nil_step {scr : scanner} (h : scr.Delivers []) :
    (scr.Scan).2 = false := by
  cases scr with
  | ofSlice s =>
    obtain ⟨h0, h1, h2⟩ := h
    have hge : s.slice.length ≤ s.index.toNat := by
      by_contra hlt
      have := congrArg List.length h2
      simp only [List.length_nil, List.length_drop] at this
      omega
    simp only [scanner.Scan, sliceScanner.Scan, decide_eq_false_iff_not]
    omega
  | ofStdin b =>
    obtain ⟨h0, h1⟩ := h
    simp [scanner.Scan, bufioScanner.Scan, h0, ← h1]

theorem scanner.Delivers.pending_eq {scr : scanner} {ts : List String}
    (h : scr.Delivers ts) : scr.pending = ts.length := by
  cases scr with
  | ofSlice s =>
    obtain ⟨h0, h1, h2⟩ := h
    simp only [scanner.pending, h2, List.length_drop]
    omega
  | ofStdin b =>
    obtain ⟨h0, h1⟩ := h
    simp [scanner.pending, h0, h1]

theorem scanner.delivers_fresh (args : List String) :
    (scanner.ofSlice (sliceScanner.fresh args)).Delivers args := by
  simp [scanner.Delivers, sliceScanner.fresh]

theorem scanner.ofSlice_Err (s : sliceScanner) : (scanner.ofSlice s).Err = none := rfl

theorem scanner.ofSlice_Scan_isSlice (s : sliceScanner) :
    ∃ s1, (scanner.ofSlice s).Scan.1 = scanner.ofSlice s1 :=
  ⟨_, rfl⟩

theorem scanner.Delivers.cons_endErr {scr : scanner} {t : String} {ts : List String}
    (h : scr.Delivers (t :: ts)) : ((scr.Scan).1).endErr = scr.endErr := by
  cases scr with
  | ofSlice s => rfl
  | ofStdin b =>
    obtain ⟨h0, h1⟩ := h
    simp [scanner.Scan, bufioScanner.Scan, h0, ← h1, scanner.endErr]

theorem scanner.Delivers.nil_Err {scr : scanner} (h : scr.Delivers []) :
    ((scr.Scan).1).Err = scr.endErr := by
  cases scr with
  | ofSlice s => rfl
  | ofStdin b =>
    obtain ⟨h0, h1⟩ := h
    simp [scanner.Scan, bufioScanner.Scan, h0, ← h1, scanner.endErr, scanner.Err,
      bufioScanner.Err]

/-! ## Lemmas: the sequential run -/

theorem runMain_returned (c : Context) (env : Collab) (n : Nat) (s : State) (o : Outcome)
    (h : s.pc = .returned o) : runMain c env n s = s := by
  cases n with
  | zero => rfl
  | succ n => simp [runMain, stepMain, h]

theorem runMain_mk_returned (c : Context) (env : Collab) (n : Nat) (scr : scanner)
    (g : getter) (firstArg : String) (argCnt : Int) (info : getInfo) (err : Option GoError)
    (sem : Nat) (tasks : List Task) (o : Outcome) (calls : List String)
    (logged : List (String × Option GoError)) :
    runMain c env n
        { scr := scr, g := g, firstArg := firstArg, argCnt := argCnt, getInfo := info,
          err := err, sem := sem, tasks := tasks, pc := .returned o, calls := calls,
          logged := logged }
      = { scr := scr, g := g, firstArg := firstArg, argCnt := argCnt, getInfo := info,
          err := err, sem := sem, tasks := tasks, pc := .returned o, calls := calls,
          logged := logged } :=
  runMain_returned c env n _ o rfl

theorem stepMain_seq_ok_eq (c : Context) (env : Collab) (s : State) (t : String)
    (ts : List String) (hpc : s.pc = .loopHead) (hpar : c.parallel = false)
    (hd : s.scr.Delivers (t :: ts)) (hok : (env.get s.g t).2 = none) :
    stepMain c env s = some
      { s with scr := (s.scr.Scan).1,
               firstArg := if s.firstArg = "" then t else s.firstArg,
               argCnt := s.argCnt + 1,
               getInfo := (env.get s.g t).1,
               err := none,
               calls := s.calls ++ [t] } := by
  obtain ⟨h1, h2, _⟩ := hd.cons_step
  simp [stepMain, hpc, h1, h2, hpar, hok]

theorem stepMain_seq_ok (c : Context) (env : Collab) (s : State) (t : String)
    (ts : List String) (hpc : s.pc = .loopHead) (hpar : c.parallel = false)
    (hd : s.scr.Delivers (t :: ts)) (hok : (env.get s.g t).2 = none) :
    ∃ s1, stepMain c env s = some s1 ∧ s1.pc = .loopHead ∧ s1.tasks = s.tasks ∧ s1.g = s.g
      ∧ s1.calls = s.calls ++ [t]
      ∧ s1.firstArg = (if s.firstArg = "" then t else s.firstArg)
      ∧ s1.argCnt = s.argCnt + 1 ∧ s1.getInfo = (env.get s.g t).1
      ∧ s1.scr = (s.scr.Scan).1 :=
  ⟨_, stepMain_seq_ok_eq c env s t ts hpc hpar hd hok, hpc, rfl, rfl, rfl, rfl, rfl, rfl, rfl⟩

theorem stepMain_seq_fail_eq (c : Context) (env : Collab) (s : State) (t : String)
    (ts : List String) (e : GoError) (hpc : s.pc = .loopHead) (hpar : c.parallel = false)
    (hd : s.scr.Delivers (t :: ts)) (hfail : (env.get s.g t).2 = some e) :
    stepMain c env s = some
      { s with scr := (s.scr.Scan).1,
               firstArg := if s.firstArg = "" then t else s.firstArg,
               argCnt := s.argCnt + 1,
               getInfo := (env.get s.g t).1,
               err := some e,
               calls := s.calls ++ [t],
               pc := .returned (.ret (some (failedToGet env t e))) } := by
  obtain ⟨h1, h2, _⟩ := hd.cons_step
  simp [stepMain, hpc, h1, h2, hpar, hfail]

theorem stepMain_seq_fail (c : Context) (env : Collab) (s : State) (t : String)
    (ts : List String) (e : GoError) (hpc : s.pc = .loopHead) (hpar : c.parallel = false)
    (hd : s.scr.Delivers (t :: ts)) (hfail : (env.get s.g t).2 = some e) :
    ∃ s1, stepMain c env s = some s1
      ∧ s1.pc = .returned (.ret (some (failedToGet env t e)))
      ∧ s1.calls = s.calls ++ [t] :=
  ⟨_, stepMain_seq_fail_eq c env s t ts e hpc hpar hd hfail, rfl, rfl⟩

theorem runMain_seq_end (c : Context) (env : Collab) (s : State) (m : Nat)
    (hpc : s.pc = .loopHead) (htasks : s.tasks = []) (hd : s.scr.Delivers [])
    (herr : s.scr.endErr = none) :
    runMain c env (m + 4) s
      = { s with scr := (s.scr.Scan).1, err := none,
                 pc := .returned (postRun c { s with scr := (s.scr.Scan).1, err := none,
                                                      pc := .egWait }) } := by
  have h1 := hd.nil_step
  have h2 := hd.nil_Err
  rw [herr] at h2
  simp [runMain, stepMain, hpc, h1, h2, htasks, allFinished, runMain_mk_returned]

theorem runMain_seq_fail (c : Context) (env : Collab) (hpar : c.parallel = false)
    (pre : List String) :
    ∀ (s : State) (n : Nat) (t : String) (post : List String) (e : GoError),
      s.pc = .loopHead → s.scr.Delivers (pre ++ t :: post) →
      (∀ x ∈ pre, (env.get s.g x).2 = none) → (env.get s.g t).2 = some e →
      pre.length + 1 ≤ n →
      (runMain c env n s).pc = .returned (.ret (some (failedToGet env t e)))
        ∧ (runMain c env n s).calls = s.calls ++ pre ++ [t] := by
  induction pre with
  | nil =>
    intro s n t post e hpc hd _ hfail hn
    obtain ⟨m, rfl⟩ : ∃ m, n = m + 1 := ⟨n - 1, by omega⟩
    obtain ⟨s1, hstep, hp, hc⟩ := stepMain_seq_fail c env s t post e hpc hpar hd hfail
    simp only [runMain, hstep]
    rw [runMain_returned c env m _ _ hp]
    exact ⟨hp, by simpa using hc⟩
  | cons x pre ih =>
    intro s n t post e hpc hd hok hfail hn
    obtain ⟨m, rfl⟩ : ∃ m, n = m + 1 := ⟨n - 1, by simp at hn; omega⟩
    have hx : (env.get s.g x).2 = none := hok x (by simp)
    have hd1 : s.scr.Delivers (x :: (pre ++ t :: post)) := hd
    obtain ⟨s1, hstep, hp, _, hg, hc, _, _, _, hscr⟩ :=
      stepMain_seq_ok c env s x _ hpc hpar hd1 hx
    simp only [runMain, hstep]
    have := ih s1 m t post e hp (by rw [hscr]; exact hd1.cons_step.2.2)
      (fun y hy => by rw [hg]; exact hok y (by simp [hy])) (by rw [hg]; exact hfail)
      (by simp at hn; omega)
    simpa [hc, List.append_assoc] using this

theorem runMain_seq_ok (c : Context) (env : Collab) (hpar : c.parallel = false)
    (ts : List String) :
    ∀ (s : State) (n : Nat),
      s.pc = .loopHead → s.tasks = [] → s.scr.Delivers ts → s.scr.endErr = none →
      (∀ x ∈ ts, (env.get s.g x).2 = none) → ts.length + 4 ≤ n →
      (runMain c env n s).calls = s.calls ++ ts
        ∧ ∃ fs : State, (runMain c env n s).pc = .returned (postRun c fs)
            ∧ fs.firstArg = pickFirst s.firstArg ts
            ∧ fs.argCnt = s.argCnt + ts.length
            ∧ fs.g = s.g
            ∧ (ts = [] → fs.getInfo = s.getInfo)
            ∧ (∀ t, ts.getLast? = some t → fs.getInfo = (env.get s.g t).1) := by
  induction ts with
  | nil =>
    intro s n hpc htasks hd herr _ hn
    obtain ⟨m, rfl⟩ : ∃ m, n = m + 4 := ⟨n - 4, by simp at hn; omega⟩
    rw [runMain_seq_end c env s m hpc htasks hd herr]
    exact ⟨by simp, _, rfl, rfl, by simp, rfl, fun _ => rfl, by simp⟩
  | cons x ts ih =>
    intro s n hpc htasks hd herr hok hn
    obtain ⟨m, rfl⟩ : ∃ m, n = m + 1 := ⟨n - 1, by simp at hn; omega⟩
    have hx : (env.get s.g x).2 = none := hok x (by simp)
    obtain ⟨s1, hstep, hp, ht, hg, hc, hf, ha, hi, hscr⟩ :=
      stepMain_seq_ok c env s x _ hpc hpar hd hx
    simp only [runMain, hstep]
    obtain ⟨hc1, fs, h1, h2, h3, h4, h5, h6⟩ := ih s1 m hp (by rw [ht]; exact htasks)
      (by rw [hscr]; exact hd.cons_step.2.2)
      (by rw [hscr, hd.cons_endErr]; exact herr)
      (fun y hy => by rw [hg]; exact hok y (by simp [hy])) (by simp at hn; omega)
    refine ⟨by simpa [hc, List.append_assoc] using hc1, fs, h1, ?_, ?_, by rw [h4, hg],
      by simp, ?_⟩
    · rw [h2, hf]
      simp [pickFirst]
    · rw [h3, ha]
      simp only [List.length_cons]
      push_cast
      ring
    · intro t ht
      cases ts with
      | nil =>
        simp at ht
        subst ht
        rw [h5 rfl, hi]
      | cons y ys =>
        have : (y :: ys).getLast? = some t := by simpa [List.getLast?_cons_cons] using ht
        rw [h6 t this, hg]

theorem start_ok_of_args (c : Context) (env : Collab)
    (hcfg : ∀ e, env.gitconfigGet ≠ .failed e) (hargs : c.args ≠ []) :
    start c env = .ok (initState (mkGetter c env) (.ofSlice (sliceScanner.fresh c.args))) := by
  have hlen : c.args.length > 0 := List.length_pos.mpr hargs
  unfold start
  cases hg : env.gitconfigGet with
  | failed e => exact absurd hg (hcfg e)
  | value v => simp [hlen]
  | notFound => simp [hlen]

/-! ## Theorems: sequential mode -/

/-- C1: sequential mode is fail-fast. With `parallel` false and targets given as
arguments (the run reaching the loop, that is the git configuration lookup not
failing): if `get` succeeds on the targets `pre` and fails with `e` on the next
target `t`, then `doGet` has invoked `get` on `pre` and then on `t`, in list
order, on no target after `t`, and returns the error wrapping `e` whose message
is `failed to get <%q of t>: <message of e>`. When `get` fails on no target, it
is invoked on every target in list order. -/
theorem doGet_sequential_fail_fast (c : Context) (env : Collab)
    (hpar : c.parallel = false) (hcfg : ∀ e, env.gitconfigGet ≠ .failed e) :
    (∀ (pre post : List String) (t : String) (e : GoError),
        c.args = pre ++ t :: post →
        (∀ x ∈ pre, (env.get (mkGetter c env) x).2 = none) →
        (env.get (mkGetter c env) t).2 = some e →
        doGet c env = some
          { outcome := .ret (some (.wrap
              ("failed to get " ++ env.quote t ++ ": " ++ e.Error) e)),
            calls := pre ++ [t] })
    ∧ (c.args ≠ [] → (∀ x ∈ c.args, (env.get (mkGetter c env) x).2 = none) →
        ∃ o, doGet c env = some { outcome := o, calls := c.args }) := by
  constructor
  · intro pre post t e hargs hpre hfail
    have hne : c.args ≠ [] := by rw [hargs]; simp
    have hpend := (scanner.delivers_fresh c.args).pending_eq
    have hd : (scanner.ofSlice (sliceScanner.fresh c.args)).Delivers (pre ++ t :: post) := by
      have h0 := scanner.delivers_fresh c.args
      rw [hargs] at h0 ⊢
      exact h0
    obtain ⟨h1, h2⟩ := runMain_seq_fail c env hpar pre
      (initState (mkGetter c env) (.ofSlice (sliceScanner.fresh c.args)))
      ((scanner.ofSlice (sliceScanner.fresh c.args)).pending + 4) t post e rfl hd hpre hfail
      (by rw [hpend, hargs]; simp; omega)
    simp only [doGet, start_ok_of_args c env hcfg hne]
    simp only [initState] at h1 h2 ⊢
    rw [h1, h2]
    simp [failedToGet]
  · intro hne hok
    have hd := scanner.delivers_fresh c.args
    have hpend := hd.pending_eq
    obtain ⟨h1, fs, h2, _⟩ := runMain_seq_ok c env hpar c.args
      (initState (mkGetter c env) (.ofSlice (sliceScanner.fresh c.args)))
      ((scanner.ofSlice (sliceScanner.fresh c.args)).pending + 4) rfl rfl hd rfl hok
      (by rw [hpend])
    simp only [doGet, start_ok_of_args c env hcfg hne]
    simp only [initState] at h1 h2 ⊢
    rw [h1, h2]
    exact ⟨postRun c fs, by simp⟩

/-- Witness for C1: targets `[A, B, C]` with `B` failing give calls on `A` and
`B` only, and the wrapped error of `B` as the result. -/
theorem doGet_sequential_fail_fast_witness :
    doGet (ctxOf ["A", "B", "C"] false false) envFailB = some
      { outcome := .ret (some (.wrap "failed to get \"B\": boom" (.plain "boom"))),
        calls := ["A", "B"] } :=
  (doGet_sequential_fail_fast (ctxOf ["A", "B", "C"] false false) envFailB rfl
    (by intro e h; cases h)).1 ["A"] ["C"] "B" (.plain "boom") rfl (by decide) (by decide)

/-! ## Theorems: the repository locator -/

theorem foldl_append_eq_join {α : Type} (f : α → String) (l : List α) :
    ∀ h : String, l.foldl (fun b r => b ++ f r) h = h ++ String.join (l.map f) := by
  have hjoin : ∀ (ss : List String) (a : String),
      ss.foldl (fun r s => r ++ s) a = a ++ ss.foldl (fun r s => r ++ s) "" := by
    intro ss
    induction ss with
    | nil => intro a; simp
    | cons s ss ih =>
      intro a
      simp only [List.foldl_cons]
      rw [ih (a ++ s), ih ("" ++ s)]
      simp [String.append_assoc]
  induction l with
  | nil => intro h; simp [String.join]
  | cons r l ih =>
    intro h
    simp only [List.foldl_cons, List.map_cons, String.join]
    rw [ih (h ++ f r), hjoin _ ("" ++ f r)]
    simp [String.join, String.append_assoc]

/-- C5: when the walk succeeds and the match set for `name` holds more than
one repository, `look` fails without launching a shell, with the error whose
message is the header line followed by one line per repository of the match
set, each exactly once and in match-set order, the line being seven blanks,
`- `, the path segments joined by `/`, and a newline. -/
theorem look_ambiguous (env : LookEnv) (name : String) (bare : Bool)
    (hwalk : env.walkErr = none) (hmany : (matchSet env name).length > 1) :
    look env name bare = .fail (.plain
      ("More than one repositories are found; Try more precise name\n" ++
        String.join ((matchSet env name).map
          (fun repo => "       - " ++ String.intercalate "/" repo.PathParts ++ "\n")))) := by
  have hne : ¬ (matchSet env name).length = 0 := by omega
  simp only [look, hwalk, fallback, if_neg hne]
  cases hm : matchSet env name with
  | nil => simp [hm] at hmany
  | cons r rs =>
    cases rs with
    | nil => simp [hm] at hmany
    | cons r2 rs2 =>
      simp only [resolve, ambiguityError]
      rw [foldl_append_eq_join]
      rfl

/-- Witness for C5: with `github.com/x/a` and `github.com/y/a` on disk, the name
`a` is ambiguous and the error lists both. -/
theorem look_ambiguous_witness :
    look (lookEnvOf [repoA, repoYA]) "a" false = .fail (.plain
      ("More than one repositories are found; Try more precise name\n" ++
        String.join ((matchSet (lookEnvOf [repoA, repoYA]) "a").map
          (fun repo => "       - " ++ String.intercalate "/" repo.PathParts ++ "\n")))) :=
  look_ambiguous (lookEnvOf [repoA, repoYA]) "a" false rfl (by decide)

/-- C7: the fallback checks physical existence. When the walk succeeds with no
matching repository and `name` parses as a URL whose derived local path does
not exist on disk (`os.Stat` on its `FullPath` fails), `look` returns the error
`no repository found` and launches no shell. -/
theorem look_fallback_checks_existence (env : LookEnv) (name : String) (bare : Bool)
    (url : URL) (repo : LocalRepository)
    (hwalk : env.walkErr = none) (hnone : matchSet env name = [])
    (hurl : env.newURL name false false = .ok url)
    (hrepo : env.LocalRepositoryFromURL url bare = .ok repo)
    (hstat : env.statOk repo.FullPath = false) :
    look env name bare = .fail (.plain "no repository found") := by
  simp [look, hwalk, fallback, hnone, hurl, hrepo, hstat, resolve]

/-- Witness for C7: nothing on disk, the name `a` parses as a URL, and its
derived path `/ghq/github.com/u/a` does not exist. -/
theorem look_fallback_checks_existence_witness :
    look (lookEnvOf []) "a" false = .fail (.plain "no repository found") :=
  look_fallback_checks_existence (lookEnvOf []) "a" false
    { Scheme := "https", Host := "github.com", Path := "a" }
    (repoAt ["github.com", "u", "a"]) rfl rfl rfl rfl (by decide)

/-- Counterexample to C6 as stated: the walk succeeds, nothing matches and the
fallback yields no repository, yet `look` does not fail with `no repository
found`: it returns the error of the local-path projection. -/
theorem look_projection_error_counterexample :
    lookEnvProjectionFails.walkErr = none
    ∧ matchSet lookEnvProjectionFails "a" = []
    ∧ (∀ url repo, lookEnvProjectionFails.newURL "a" false false = .ok url →
        lookEnvProjectionFails.LocalRepositoryFromURL url false ≠ .ok repo)
    ∧ look lookEnvProjectionFails "a" false = .fail (.plain "no root directory")
    ∧ look lookEnvProjectionFails "a" false ≠ .fail (.plain "no repository found") := by
  refine ⟨rfl, rfl, ?_, rfl, by decide⟩
  intro url repo _ h
  cases h

theorem look_empty_no_url (env : LookEnv) (name : String) (bare : Bool) (e : GoError)
    (hwalk : env.walkErr = none) (hnone : matchSet env name = [])
    (he : env.newURL name false false = .error e) :
    look env name bare = .fail (.plain "no repository found") := by
  simp [look, hwalk, fallback, hnone, he, resolve]

theorem look_empty_missing (env : LookEnv) (name : String) (bare : Bool) (url : URL)
    (repo : LocalRepository) (hwalk : env.walkErr = none) (hnone : matchSet env name = [])
    (hurl : env.newURL name false false = .ok url)
    (hrepo : env.LocalRepositoryFromURL url bare = .ok repo)
    (hstat : env.statOk repo.FullPath = false) :
    look env name bare = .fail (.plain "no repository found") := by
  simp [look, hwalk, fallback, hnone, hurl, hrepo, hstat, resolve]

/-- C6, amended: when the walk succeeds and no enumerated repository matches
`name`, then (a) if `name` does not parse as a URL, `look` fails with
`no repository found`; (b) if it parses and the projection gives a repository
whose path is not on disk, `look` fails with `no repository found`; (c) if it
parses and the projection itself fails, `look` returns the error of the
projection. -/
theorem look_no_match (env : LookEnv) (name : String) (bare : Bool)
    (hwalk : env.walkErr = none) (hnone : matchSet env name = []) :
    (∀ e, env.newURL name false false = .error e →
        look env name bare = .fail (.plain "no repository found"))
    ∧ (∀ url repo, env.newURL name false false = .ok url →
        env.LocalRepositoryFromURL url bare = .ok repo →
        env.statOk repo.FullPath = false →
        look env name bare = .fail (.plain "no repository found"))
    ∧ (∀ url e, env.newURL name false false = .ok url →
        env.LocalRepositoryFromURL url bare = .error e →
        look env name bare = .fail e) := by
  refine ⟨?_, ?_, ?_⟩
  · intro e he
    exact look_empty_no_url env name bare e hwalk hnone he
  · intro url repo hurl hrepo hstat
    exact look_empty_missing env name bare url repo hwalk hnone hurl hrepo hstat
  · intro url e hurl hrepo
    simp [look, hwalk, fallback, hnone, hurl, hrepo]

/-- Witness for the amended C6: nothing on disk and the name `a`, whose derived
path does not exist. -/
theorem look_no_match_witness :
    look (lookEnvOf []) "a" false = .fail (.plain "no repository found") :=
  (look_no_match (lookEnvOf []) "a" false rfl rfl).2.1
    { Scheme := "https", Host := "github.com", Path := "a" }
    (repoAt ["github.com", "u", "a"]) rfl rfl (by decide)

/-- Counterexample to C8 as stated: with exactly `github.com/x/a` and
`github.com/x/ab` on disk and the match predicate of the spec, the name `x`
matches neither repository, and `look` fails with `no repository found`, not
with an ambiguity error listing both. -/
theorem look_middle_segment_counterexample :
    LocalRepository.Matches repoA "x" = false
    ∧ LocalRepository.Matches repoAB "x" = false
    ∧ look (lookEnvOf [repoA, repoAB]) "x" false = .fail (.plain "no repository found")
    ∧ look (lookEnvOf [repoA, repoAB]) "x" false ≠ .fail (ambiguityError [repoA, repoAB]) := by
  refine ⟨by decide, by decide, by decide, by decide⟩

/-- C8, amended: with exactly `github.com/x/a` and `github.com/x/ab` walked (in
either order) and the match predicate of the spec, `look` of `a` resolves to
exactly `github.com/x/a`; the name `x` matches neither repository, so `look` of
`x` is decided by the URL fallback alone and fails with `no repository found`
whenever `x` does not parse as a URL or its derived path is not on disk. -/
theorem look_suffix_match (env : LookEnv) (bare : Bool)
    (hwalk : env.walkErr = none) (hmatch : env.Matches = LocalRepository.Matches)
    (hrepos : env.walked = [repoA, repoAB] ∨ env.walked = [repoAB, repoA]) :
    look env "a" bare = .shell repoA
    ∧ matchSet env "x" = []
    ∧ (∀ e, env.newURL "x" false false = .error e →
        look env "x" bare = .fail (.plain "no repository found"))
    ∧ (∀ url repo, env.newURL "x" false false = .ok url →
        env.LocalRepositoryFromURL url bare = .ok repo →
        env.statOk repo.FullPath = false →
        look env "x" bare = .fail (.plain "no repository found")) := by
  have hA : LocalRepository.Matches repoA "a" = true := by decide
  have hAB : LocalRepository.Matches repoAB "a" = false := by decide
  have hxA : LocalRepository.Matches repoA "x" = false := by decide
  have hxAB : LocalRepository.Matches repoAB "x" = false := by decide
  have hx : matchSet env "x" = [] := by
    rcases hrepos with h | h <;> simp [matchSet, h, hmatch, hxA, hxAB]
  have ha : matchSet env "a" = [repoA] := by
    rcases hrepos with h | h <;> simp [matchSet, h, hmatch, hA, hAB]
  refine ⟨?_, hx, fun e he => look_empty_no_url env "x" bare e hwalk hx he,
    fun url repo hurl hrepo hstat =>
      look_empty_missing env "x" bare url repo hwalk hx hurl hrepo hstat⟩
  simp [look, hwalk, fallback, ha, resolve]

/-- Witness for the amended C8: the two repositories walked in the order
`github.com/x/a`, `github.com/x/ab`. -/
theorem look_suffix_match_witness :
    look (lookEnvOf [repoA, repoAB]) "a" false = .shell repoA :=
  (look_suffix_match (lookEnvOf [repoA, repoAB]) false rfl rfl (Or.inl rfl)).1

/-! ## Lemmas: updating one goroutine in the list -/

theorem countP_set_task (p : Task → Bool) :
    ∀ (l : List Task) (i : Nat) (a b : Task), l[i]? = some a →
      (l.set i b).countP p + (if p a then 1 else 0) = l.countP p + (if p b then 1 else 0) := by
  intro l
  induction l with
  | nil => intro i a b h; simp at h
  | cons x xs ih =>
    intro i a b h
    cases i with
    | zero =>
      simp only [List.getElem?_cons_zero, Option.some.injEq] at h
      subst h
      simp only [List.set_cons_zero, List.countP_cons]
      omega
    | succ i =>
      simp only [List.getElem?_cons_succ] at h
      have := ih i a b h
      simp only [List.set_cons_succ, List.countP_cons]
      omega

theorem sum_set_task (f : Task → Nat) :
    ∀ (l : List Task) (i : Nat) (a b : Task), l[i]? = some a →
      ((l.set i b).map f).sum + f a = (l.map f).sum + f b := by
  intro l
  induction l with
  | nil => intro i a b h; simp at h
  | cons x xs ih =>
    intro i a b h
    cases i with
    | zero =>
      simp only [List.getElem?_cons_zero, Option.some.injEq] at h
      subst h
      simp only [List.set_cons_zero, List.map_cons, List.sum_cons]
      omega
    | succ i =>
      simp only [List.getElem?_cons_succ] at h
      have := ih i a b h
      simp only [List.set_cons_succ, List.map_cons, List.sum_cons]
      omega

theorem map_target_set_task :
    ∀ (l : List Task) (i : Nat) (a b : Task), l[i]? = some a → b.target = a.target →
      (l.set i b).map Task.target = l.map Task.target := by
  intro l
  induction l with
  | nil => intro i a b h; simp at h
  | cons x xs ih =>
    intro i a b h hb
    cases i with
    | zero =>
      simp only [List.getElem?_cons_zero, Option.some.injEq] at h
      subst h
      simp [hb]
    | succ i =>
      simp only [List.getElem?_cons_succ] at h
      simp [ih i a b h hb]

theorem started_set_same :
    ∀ (l : List Task) (i : Nat) (a b : Task), l[i]? = some a → b.target = a.target →
      a.started = true → b.started = true →
      ((l.set i b).filter Task.started).map Task.target
        = (l.filter Task.started).map Task.target := by
  intro l
  induction l with
  | nil => intro i a b h; simp at h
  | cons x xs ih =>
    intro i a b h hb ha hb2
    cases i with
    | zero =>
      simp only [List.getElem?_cons_zero, Option.some.injEq] at h
      subst h
      simp [List.filter_cons, ha, hb2, hb]
    | succ i =>
      simp only [List.getElem?_cons_succ] at h
      simp only [List.set_cons_succ, List.filter_cons]
      split <;> simp [ih i a b h hb ha hb2]

theorem started_set_new :
    ∀ (l : List Task) (i : Nat) (a b : Task), l[i]? = some a → b.target = a.target →
      a.started = false → b.started = true →
      List.Perm (((l.set i b).filter Task.started).map Task.target)
        ((l.filter Task.started).map Task.target ++ [a.target]) := by
  intro l
  induction l with
  | nil => intro i a b h; simp at h
  | cons x xs ih =>
    intro i a b h hb ha hb2
    cases i with
    | zero =>
      simp only [List.getElem?_cons_zero, Option.some.injEq] at h
      subst h
      simp only [List.set_cons_zero, List.filter_cons, ha, hb2, if_true, List.map_cons, hb]
      simpa using (List.perm_append_singleton x.target _).symm
    | succ i =>
      simp only [List.getElem?_cons_succ] at h
      have := ih i a b h hb ha hb2
      simp only [List.set_cons_succ, List.filter_cons]
      split
      · simpa using this
      · simpa using this

theorem allFinished_get (l : List Task) (i : Nat) (a : Task)
    (hall : allFinished l = true) (h : l[i]? = some a) : a.pc = .finished := by
  have hmem : a ∈ l := List.getElem?_mem h
  simp only [allFinished, List.all_eq_true] at hall
  simpa using hall a hmem

theorem exists_unfinished (l : List Task) (h : allFinished l = false) :
    ∃ (i : Nat) (a : Task), l[i]? = some a ∧ a.pc ≠ .finished := by
  have : ¬ (∀ x ∈ l, (x.pc == TaskPc.finished) = true) := by
    intro hall
    have : allFinished l = true := by simpa [allFinished, List.all_eq_true] using hall
    rw [this] at h
    cases h
  push_neg at this
  obtain ⟨a, hmem, ha⟩ := this
  obtain ⟨i, hi⟩ := List.getElem?_of_mem hmem
  exact ⟨i, a, hi, by simpa using ha⟩

theorem exists_of_countP_pos (p : Task → Bool) (l : List Task) (h : 0 < l.countP p) :
    ∃ (i : Nat) (a : Task), l[i]? = some a ∧ p a = true := by
  obtain ⟨a, hmem, ha⟩ := List.countP_pos_iff.mp h
  obtain ⟨i, hi⟩ := List.getElem?_of_mem hmem
  exact ⟨i, a, hi, ha⟩

theorem allFinished_started (l : List Task) (h : allFinished l = true) :
    l.filter Task.started = l := by
  rw [List.filter_eq_self]
  intro a ha
  simp only [allFinished, List.all_eq_true] at h
  have := h a ha
  simp only [beq_iff_eq] at this
  simp [Task.started, TaskPc.started, this]

/-! ## Lemmas: runs of the transition system -/

theorem exec_append (c : Context) (env : Collab) (evs1 evs2 : List Event) :
    ∀ (s s1 : State), exec c env evs1 s = some s1 →
      exec c env (evs1 ++ evs2) s = exec c env evs2 s1 := by
  induction evs1 with
  | nil => intro s s1 h; simp only [exec, Option.some.injEq] at h; subst h; rfl
  | cons ev evs ih =>
    intro s s1 h
    simp only [exec, List.cons_append] at h ⊢
    cases hst : step c env ev s with
    | none => simp [hst] at h
    | some s2 =>
      simp only [hst] at h ⊢
      exact ih s2 s1 h

theorem exec_invariant (c : Context) (env : Collab) (P : State → Prop)
    (hstep : ∀ ev s s1, P s → step c env ev s = some s1 → P s1) :
    ∀ (evs : List Event) (s s1 : State), P s → exec c env evs s = some s1 → P s1 := by
  intro evs
  induction evs with
  | nil => intro s s1 hP h; simp only [exec, Option.some.injEq] at h; subst h; exact hP
  | cons ev evs ih =>
    intro s s1 hP h
    simp only [exec] at h
    cases hst : step c env ev s with
    | none => simp [hst] at h
    | some s2 =>
      simp only [hst] at h
      exact ih s2 s1 (hstep ev s s2 hP hst) h

theorem scanner.pending_Scan (scr : scanner) (h : (scr.Scan).2 = true) :
    ((scr.Scan).1).pending + 1 ≤ scr.pending := by
  cases scr with
  | ofSlice s =>
    simp only [scanner.Scan, sliceScanner.Scan, decide_eq_true_eq] at h
    simp only [scanner.Scan, sliceScanner.Scan, scanner.pending]
    omega
  | ofStdin b =>
    simp only [scanner.Scan, bufioScanner.Scan] at h ⊢
    cases hst : b.stopped with
    | true => simp [hst] at h
    | false =>
      cases hl : b.lines with
      | nil => simp [hst, hl] at h
      | cons l rest => simp [hst, hl, scanner.pending]

/-! ## Lemmas: the steps, case by case -/

theorem stepMain_cases (c : Context) (env : Collab) (s s1 : State)
    (hs : stepMain c env s = some s1) :
    (s.pc = .loopHead ∧ (s.scr.Scan).2 = false
        ∧ s1 = { s with scr := (s.scr.Scan).1, pc := .errStore })
    ∨ (s.pc = .loopHead ∧ (s.scr.Scan).2 = true ∧ ((s.scr.Scan).1).Text = none
        ∧ s1 = { s with scr := (s.scr.Scan).1, pc := .returned .panicked })
    ∨ (∃ t, s.pc = .loopHead ∧ (s.scr.Scan).2 = true ∧ ((s.scr.Scan).1).Text = some t
        ∧ c.parallel = true
        ∧ s1 = { s with scr := (s.scr.Scan).1,
                        firstArg := if s.firstArg = "" then t else s.firstArg,
                        argCnt := s.argCnt + 1, pc := .semSend t })
    ∨ (∃ t, s.pc = .loopHead ∧ (s.scr.Scan).2 = true ∧ ((s.scr.Scan).1).Text = some t
        ∧ c.parallel = false ∧ (env.get s.g t).2 = none
        ∧ s1 = { s with scr := (s.scr.Scan).1,
                        firstArg := if s.firstArg = "" then t else s.firstArg,
                        argCnt := s.argCnt + 1, getInfo := (env.get s.g t).1, err := none,
                        calls := s.calls ++ [t] })
    ∨ (∃ t e, s.pc = .loopHead ∧ (s.scr.Scan).2 = true ∧ ((s.scr.Scan).1).Text = some t
        ∧ c.parallel = false ∧ (env.get s.g t).2 = some e
        ∧ s1 = { s with scr := (s.scr.Scan).1,
                        firstArg := if s.firstArg = "" then t else s.firstArg,
                        argCnt := s.argCnt + 1, getInfo := (env.get s.g t).1, err := some e,
                        calls := s.calls ++ [t],
                        pc := .returned (.ret (some (failedToGet env t e))) })
    ∨ (∃ t, s.pc = .semSend t ∧ s.sem < semCap
        ∧ s1 = { s with sem := s.sem + 1, pc := .egGo t })
    ∨ (∃ t, s.pc = .egGo t
        ∧ s1 = { s with tasks := s.tasks ++ [{ target := t, pc := .spawned }],
                        pc := .loopHead })
    ∨ (s.pc = .errStore ∧ s1 = { s with err := s.scr.Err, pc := .errTest })
    ∨ (∃ e, s.pc = .errTest ∧ s.err = some e ∧ s1 = { s with pc := .errWrap })
    ∨ (s.pc = .errTest ∧ s.err = none ∧ s1 = { s with pc := .egWait })
    ∨ (s.pc = .errWrap
        ∧ s1 = { s with pc := .returned (.ret (some (readingInputError s.err))) })
    ∨ (s.pc = .egWait ∧ allFinished s.tasks = true
        ∧ s1 = { s with err := none,
                        pc := .returned (postRun c { s with err := none }) }) := by
  cases hpc : s.pc with
  | loopHead =>
    cases hsc : (s.scr.Scan).2 with
    | false =>
      simp only [stepMain, hpc, hsc] at hs
      simp only [Bool.false_eq_true, if_false, Option.some.injEq] at hs
      exact Or.inl ⟨rfl, rfl, hs.symm⟩
    | true =>
      cases htx : ((s.scr.Scan).1).Text with
      | none =>
        simp only [stepMain, hpc, hsc, htx] at hs
        simp only [if_true, Option.some.injEq] at hs
        exact Or.inr (Or.inl ⟨rfl, rfl, rfl, hs.symm⟩)
      | some t =>
        cases hp : c.parallel with
        | true =>
          simp only [stepMain, hpc, hsc, htx, hp] at hs
          simp only [if_true, Option.some.injEq] at hs
          exact Or.inr (Or.inr (Or.inl ⟨t, rfl, rfl, rfl, rfl, hs.symm⟩))
        | false =>
          cases hr : (env.get s.g t).2 with
          | none =>
            simp only [stepMain, hpc, hsc, htx, hp, hr] at hs
            simp only [if_true, Bool.false_eq_true, if_false, Option.some.injEq] at hs
            exact Or.inr (Or.inr (Or.inr (Or.inl ⟨t, rfl, rfl, rfl, rfl, hr, hs.symm⟩)))
          | some e =>
            simp only [stepMain, hpc, hsc, htx, hp, hr] at hs
            simp only [if_true, Bool.false_eq_true, if_false, Option.some.injEq] at hs
            exact Or.inr (Or.inr (Or.inr (Or.inr (Or.inl
              ⟨t, e, rfl, rfl, rfl, rfl, hr, hs.symm⟩))))
  | semSend t =>
    simp only [stepMain, hpc] at hs
    by_cases hlt : s.sem < semCap
    · simp only [hlt, if_true, Option.some.injEq] at hs
      exact Or.inr (Or.inr (Or.inr (Or.inr (Or.inr (Or.inl ⟨t, rfl, hlt, hs.symm⟩)))))
    · simp [hlt] at hs
  | egGo t =>
    simp only [stepMain, hpc, Option.some.injEq] at hs
    exact Or.inr (Or.inr (Or.inr (Or.inr (Or.inr (Or.inr (Or.inl ⟨t, rfl, hs.symm⟩))))))
  | errStore =>
    simp only [stepMain, hpc, Option.some.injEq] at hs
    exact Or.inr (Or.inr (Or.inr (Or.inr (Or.inr (Or.inr (Or.inr (Or.inl
      ⟨rfl, hs.symm⟩)))))))
  | errTest =>
    cases he : s.err with
    | some e =>
      simp only [stepMain, hpc, he, Option.some.injEq] at hs
      exact Or.inr (Or.inr (Or.inr (Or.inr (Or.inr (Or.inr (Or.inr (Or.inr (Or.inl
        ⟨e, rfl, rfl, hs.symm⟩))))))))
    | none =>
      simp only [stepMain, hpc, he, Option.some.injEq] at hs
      exact Or.inr (Or.inr (Or.inr (Or.inr (Or.inr (Or.inr (Or.inr (Or.inr (Or.inr (Or.inl
        ⟨rfl, rfl, hs.symm⟩)))))))))
  | errWrap =>
    simp only [stepMain, hpc, Option.some.injEq] at hs
    exact Or.inr (Or.inr (Or.inr (Or.inr (Or.inr (Or.inr (Or.inr (Or.inr (Or.inr (Or.inr
      (Or.inl ⟨rfl, hs.symm⟩))))))))))
  | egWait =>
    simp only [stepMain, hpc] at hs
    by_cases hall : allFinished s.tasks = true
    · simp only [hall, if_true, Option.some.injEq] at hs
      exact Or.inr (Or.inr (Or.inr (Or.inr (Or.inr (Or.inr (Or.inr (Or.inr (Or.inr (Or.inr
        (Or.inr ⟨rfl, hall, hs.symm⟩))))))))))
    · simp [hall] at hs
  | returned o =>
    simp [stepMain, hpc] at hs

theorem stepTask_summary (env : Collab) (i : Nat) (s s1 : State)
    (hs : stepTask env i s = some s1) :
    ∃ (t : Task) (p : TaskPc), s.tasks[i]? = some t ∧ t.pc ≠ .finished
      ∧ s1.tasks = s.tasks.set i { t with pc := p }
      ∧ s1.pc = s.pc ∧ s1.scr = s.scr ∧ s1.g = s.g
      ∧ s1.firstArg = s.firstArg ∧ s1.argCnt = s.argCnt
      ∧ p.stepsLeft < t.pc.stepsLeft
      ∧ p.started = true
      ∧ s1.calls = (if t.pc.started = true then s.calls else s.calls ++ [t.target])
      ∧ s1.sem + (if t.pc.holdsToken = true then 1 else 0)
          = s.sem + (if p.holdsToken = true then 1 else 0)
      ∧ s1.sem ≤ s.sem := by
  cases ht : s.tasks[i]? with
  | none => simp [stepTask, ht] at hs
  | some t =>
    cases hpc : t.pc with
    | spawned =>
      simp only [stepTask, ht, hpc, Option.some.injEq] at hs
      subst hs
      exact ⟨t, .running, rfl, by simp [hpc], rfl, rfl, rfl, rfl, rfl, rfl,
        by simp [hpc, TaskPc.stepsLeft], rfl, by simp [hpc, TaskPc.started],
        by simp [hpc, TaskPc.holdsToken], le_refl _⟩
    | running =>
      simp only [stepTask, ht, hpc, Option.some.injEq] at hs
      subst hs
      exact ⟨t, .gotResult, rfl, by simp [hpc], rfl, rfl, rfl, rfl, rfl, rfl,
        by simp [hpc, TaskPc.stepsLeft], rfl, by simp [hpc, TaskPc.started],
        by simp [hpc, TaskPc.holdsToken], le_refl _⟩
    | gotResult =>
      simp only [stepTask, ht, hpc, Option.some.injEq] at hs
      subst hs
      exact ⟨t, .storedInfo, rfl, by simp [hpc], rfl, rfl, rfl, rfl, rfl, rfl,
        by simp [hpc, TaskPc.stepsLeft], rfl, by simp [hpc, TaskPc.started],
        by simp [hpc, TaskPc.holdsToken], le_refl _⟩
    | storedInfo =>
      simp only [stepTask, ht, hpc, Option.some.injEq] at hs
      subst hs
      exact ⟨t, .stored, rfl, by simp [hpc], rfl, rfl, rfl, rfl, rfl, rfl,
        by simp [hpc, TaskPc.stepsLeft], rfl, by simp [hpc, TaskPc.started],
        by simp [hpc, TaskPc.holdsToken], le_refl _⟩
    | stored =>
      cases he : s.err with
      | some e =>
        simp only [stepTask, ht, hpc, he, Option.some.injEq] at hs
        subst hs
        exact ⟨t, .logging, rfl, by simp [hpc], rfl, rfl, rfl, rfl, rfl, rfl,
          by simp [hpc, TaskPc.stepsLeft], rfl, by simp [hpc, TaskPc.started],
          by simp [hpc, TaskPc.holdsToken], le_refl _⟩
      | none =>
        simp only [stepTask, ht, hpc, he, Option.some.injEq] at hs
        subst hs
        exact ⟨t, .returned, rfl, by simp [hpc], rfl, rfl, rfl, rfl, rfl, rfl,
          by simp [hpc, TaskPc.stepsLeft], rfl, by simp [hpc, TaskPc.started],
          by simp [hpc, TaskPc.holdsToken], le_refl _⟩
    | logging =>
      simp only [stepTask, ht, hpc, Option.some.injEq] at hs
      subst hs
      exact ⟨t, .returned, rfl, by simp [hpc], rfl, rfl, rfl, rfl, rfl, rfl,
        by simp [hpc, TaskPc.stepsLeft], rfl, by simp [hpc, TaskPc.started],
        by simp [hpc, TaskPc.holdsToken], le_refl _⟩
    | returned =>
      simp only [stepTask, ht, hpc] at hs
      by_cases hpos : 0 < s.sem
      · simp only [hpos, if_true, Option.some.injEq] at hs
        subst hs
        exact ⟨t, .released, rfl, by simp [hpc], rfl, rfl, rfl, rfl, rfl, rfl,
          by simp [hpc, TaskPc.stepsLeft], rfl, by simp [hpc, TaskPc.started],
          by simp [hpc, TaskPc.holdsToken]; omega, by simp⟩
      · simp [hpos] at hs
    | released =>
      simp only [stepTask, ht, hpc, Option.some.injEq] at hs
      subst hs
      exact ⟨t, .finished, rfl, by simp [hpc], rfl, rfl, rfl, rfl, rfl, rfl,
        by simp [hpc, TaskPc.stepsLeft], rfl, by simp [hpc, TaskPc.started],
        by simp [hpc, TaskPc.holdsToken], le_refl _⟩
    | finished =>
      simp [stepTask, ht, hpc] at hs

/-! ## Lemmas: token accounting -/

theorem semInv_stepMain (c : Context) (env : Collab) (s s1 : State) (h : SemInv s)
    (hs : stepMain c env s = some s1) : SemInv s1 := by
  obtain ⟨h1, h2⟩ := h
  rcases stepMain_cases c env s s1 hs with
    ⟨hpc, _, rfl⟩ | ⟨hpc, _, _, rfl⟩ | ⟨t, hpc, _, _, _, rfl⟩ | ⟨t, hpc, _, _, _, _, rfl⟩
    | ⟨t, e, hpc, _, _, _, _, rfl⟩ | ⟨t, hpc, hlt, rfl⟩ | ⟨t, hpc, rfl⟩ | ⟨hpc, rfl⟩
    | ⟨e, hpc, _, rfl⟩ | ⟨hpc, _, rfl⟩ | ⟨hpc, rfl⟩ | ⟨hpc, _, rfl⟩
  all_goals simp only [hpc] at h1
  all_goals refine ⟨?_, ?_⟩
  all_goals simp only [hpc]
  all_goals first
    | exact h1
    | exact h2
    | omega
    | (simp [List.countP_append, Task.holdsToken, TaskPc.holdsToken, h1])

theorem semInv_stepTask (env : Collab) (i : Nat) (s s1 : State) (h : SemInv s)
    (hs : stepTask env i s = some s1) : SemInv s1 := by
  obtain ⟨h1, h2⟩ := h
  obtain ⟨t, p, ht, _, htasks, hpc, _, _, _, _, _, _, _, hsem, hle⟩ :=
    stepTask_summary env i s s1 hs
  have hcount := countP_set_task Task.holdsToken s.tasks i t { t with pc := p } ht
  have e1 : Task.holdsToken t = t.pc.holdsToken := rfl
  have e2 : Task.holdsToken { t with pc := p } = p.holdsToken := rfl
  rw [e1, e2] at hcount
  refine ⟨?_, by omega⟩
  rw [hpc, htasks]
  omega

theorem semInv_step (c : Context) (env : Collab) (ev : Event) (s s1 : State) (h : SemInv s)
    (hs : step c env ev s = some s1) : SemInv s1 := by
  cases ev with
  | main => exact semInv_stepMain c env s s1 h hs
  | task i => exact semInv_stepTask env i s s1 h hs

theorem semInv_initState (g : getter) (scr : scanner) : SemInv (initState g scr) := by
  simp [SemInv, initState, semCap]

theorem start_eq_initState (c : Context) (env : Collab) (s0 : State)
    (h : start c env = .ok s0) : ∃ scr, s0 = initState (mkGetter c env) scr
      ∧ scr.Delivers (streamTargets c env)
      ∧ scr.endErr = (if c.args.length > 0 then none else env.stdinFailure) := by
  unfold start at h
  split at h
  · cases h
  · split at h
    · rename_i hlen
      cases h
      exact ⟨_, rfl, by simpa [streamTargets, hlen] using scanner.delivers_fresh c.args,
        by simp [hlen, scanner.endErr]⟩
    · rename_i hlen
      split at h
      · cases h
      · cases h
        exact ⟨_, rfl, by simp [streamTargets, hlen, scanner.Delivers],
          by simp [hlen, scanner.endErr]⟩

theorem semInv_reachable (c : Context) (env : Collab) (s : State)
    (h : Reachable c env s) : SemInv s := by
  obtain ⟨s0, evs, hstart, hexec⟩ := h
  obtain ⟨scr, rfl, _⟩ := start_eq_initState c env s0 hstart
  exact exec_invariant c env SemInv (semInv_step c env) evs _ s
    (semInv_initState _ _) hexec

theorem inFlight_le_holding (s : State) :
    inFlight s ≤ s.tasks.countP Task.holdsToken := by
  unfold inFlight
  apply List.countP_mono_left
  intro t _ ht
  simp only [beq_iff_eq] at ht
  simp [Task.holdsToken, TaskPc.holdsToken, ht]
/-! ## Lemmas: the invariant of a parallel run -/

theorem pickFirst_append (f : String) (l : List String) (t : String) :
    pickFirst f (l ++ [t]) = if pickFirst f l = "" then t else pickFirst f l := by
  simp [pickFirst, List.foldl_append]

theorem scanner.Delivers.of_Scan_false {scr : scanner} {rest : List String}
    (h : scr.Delivers rest) (hsc : (scr.Scan).2 = false) : rest = [] := by
  cases rest with
  | nil => rfl
  | cons t ts =>
    have := h.cons_step.1
    rw [hsc] at this
    cases this

theorem scanner.Delivers.of_Scan_true {scr : scanner} {rest : List String}
    (h : scr.Delivers rest) (hsc : (scr.Scan).2 = true) :
    ∃ t ts, rest = t :: ts ∧ ((scr.Scan).1).Text = some t ∧ ((scr.Scan).1).Delivers ts
      ∧ ((scr.Scan).1).endErr = scr.endErr := by
  cases rest with
  | nil =>
    have := h.nil_step
    rw [hsc] at this
    cases this
  | cons t ts =>
    exact ⟨t, ts, rfl, h.cons_step.2.1, h.cons_step.2.2, h.cons_endErr⟩

theorem parInv_initState (c : Context) (env : Collab) (scr : scanner) (ts : List String)
    (hd : scr.Delivers ts) :
    ParInv c env ts scr.endErr (initState (mkGetter c env) scr) := by
  refine ⟨rfl, ?_, ?_, ?_, ?_⟩
  · simp [initState]
  · simp [initState, consumed, pickFirst]
  · simp [initState, consumed]
  · show ∃ rest, scr.Delivers rest ∧ scr.endErr = scr.endErr ∧ _ ++ rest = ts
    exact ⟨ts, hd, rfl, by simp [consumed, initState]⟩

theorem parInv_stepMain (c : Context) (env : Collab) (ts : List String)
    (e0 : Option GoError) (hpar : c.parallel = true) (s s1 : State)
    (h : ParInv c env ts e0 s) (hs : stepMain c env s = some s1) :
    ParInv c env ts e0 s1 := by
  obtain ⟨hg, hcalls, hfirst, hcnt, hrest⟩ := h
  rcases stepMain_cases c env s s1 hs with
    ⟨hpc, hsc, rfl⟩ | ⟨hpc, hsc, htx, rfl⟩ | ⟨t, hpc, hsc, htx, _, rfl⟩
    | ⟨t, hpc, _, _, hp, _, rfl⟩ | ⟨t, e, hpc, _, _, hp, _, rfl⟩ | ⟨t, hpc, hlt, rfl⟩
    | ⟨t, hpc, rfl⟩ | ⟨hpc, rfl⟩ | ⟨e, hpc, herr, rfl⟩ | ⟨hpc, herr, rfl⟩ | ⟨hpc, rfl⟩
    | ⟨hpc, hall, rfl⟩
  · simp only [hpc] at hrest
    obtain ⟨rest, hd, hend, hts⟩ := hrest
    have hnil := hd.of_Scan_false hsc
    subst hnil
    refine ⟨hg, hcalls, ?_, ?_, ?_⟩
    · simpa [consumed, hpc] using hfirst
    · simpa [consumed, hpc] using hcnt
    · simp only
      refine ⟨?_, ?_⟩
      · simpa [consumed, hpc] using hts
      · rw [hd.nil_Err, hend]
  · simp only [hpc] at hrest
    obtain ⟨rest, hd, hend, hts⟩ := hrest
    obtain ⟨t, ts2, _, htx2, _, _⟩ := hd.of_Scan_true hsc
    rw [htx] at htx2
    cases htx2
  · simp only [hpc] at hrest
    obtain ⟨rest, hd, hend, hts⟩ := hrest
    obtain ⟨t2, ts2, hrest2, htx2, hd2, hend2⟩ := hd.of_Scan_true hsc
    rw [htx] at htx2
    cases htx2
    subst hrest2
    have hcons : consumed s = s.tasks.map Task.target := by simp [consumed, hpc]
    refine ⟨hg, hcalls, ?_, ?_, ?_⟩
    · simp only [consumed]
      rw [pickFirst_append, ← hcons, ← hfirst]
    · simp only [consumed]
      rw [hcnt, hcons]
      simp
    · simp only
      refine ⟨ts2, hd2, by rw [hend2, hend], ?_⟩
      simp only [consumed]
      rw [← hts, hcons]
      simp
  · rw [hpar] at hp
    cases hp
  · rw [hpar] at hp
    cases hp
  · simp only [hpc] at hrest
    refine ⟨hg, hcalls, ?_, ?_, ?_⟩
    · simpa [consumed, hpc] using hfirst
    · simpa [consumed, hpc] using hcnt
    · simpa [consumed, hpc] using hrest
  · simp only [hpc] at hrest
    refine ⟨hg, ?_, ?_, ?_, ?_⟩
    · simpa [List.filter_append, Task.started, TaskPc.started] using hcalls
    · simpa [consumed, hpc] using hfirst
    · simpa [consumed, hpc] using hcnt
    · simpa [consumed, hpc] using hrest
  · simp only [hpc] at hrest
    refine ⟨hg, hcalls, ?_, ?_, ?_⟩
    · simpa [consumed, hpc] using hfirst
    · simpa [consumed, hpc] using hcnt
    · simpa [consumed, hpc] using hrest.1
  · simp only [hpc] at hrest
    refine ⟨hg, hcalls, ?_, ?_, ?_⟩
    · simpa [consumed, hpc] using hfirst
    · simpa [consumed, hpc] using hcnt
    · simpa [consumed, hpc] using hrest
  · simp only [hpc] at hrest
    refine ⟨hg, hcalls, ?_, ?_, ?_⟩
    · simpa [consumed, hpc] using hfirst
    · simpa [consumed, hpc] using hcnt
    · simpa [consumed, hpc] using hrest
  · simp only [hpc] at hrest
    refine ⟨hg, hcalls, ?_, ?_, ?_⟩
    · simpa [consumed, hpc] using hfirst
    · simpa [consumed, hpc] using hcnt
    · simp only
      exact ⟨by simpa [consumed, hpc] using hrest, Or.inl ⟨s.err, rfl⟩⟩
  · simp only [hpc] at hrest
    refine ⟨hg, hcalls, ?_, ?_, ?_⟩
    · simpa [consumed, hpc] using hfirst
    · simpa [consumed, hpc] using hcnt
    · simp only
      refine ⟨by simpa [consumed, hpc] using hrest, Or.inr ⟨hall, ?_⟩⟩
      simp [postRun]

theorem parInv_task_update (c : Context) (env : Collab) (ts : List String)
    (e0 : Option GoError) (s s1 : State) (h : ParInv c env ts e0 s)
    (hg : s1.g = s.g) (hpc : s1.pc = s.pc) (hscr : s1.scr = s.scr)
    (hfirst : s1.firstArg = s.firstArg) (hcnt : s1.argCnt = s.argCnt)
    (htargets : s1.tasks.map Task.target = s.tasks.map Task.target)
    (hcalls : List.Perm s1.calls ((s1.tasks.filter Task.started).map Task.target))
    (hnot : allFinished s.tasks = false) :
    ParInv c env ts e0 s1 := by
  obtain ⟨h1, _, h3, h4, h5⟩ := h
  have hcons : consumed s1 = consumed s := by simp only [consumed, htargets, hpc]
  refine ⟨by rw [hg, h1], hcalls, by rw [hfirst, hcons, h3], by rw [hcnt, hcons, h4], ?_⟩
  rw [hpc, hcons, hscr]
  cases hp : s.pc with
  | loopHead => simpa [hp] using h5
  | semSend t => simpa [hp] using h5
  | egGo t => simpa [hp] using h5
  | errStore => simpa [hp] using h5
  | errTest => simpa [hp] using h5
  | errWrap => simpa [hp] using h5
  | egWait => simpa [hp] using h5
  | returned o =>
    simp only [hp] at h5 ⊢
    obtain ⟨hts, hor⟩ := h5
    refine ⟨hts, ?_⟩
    rcases hor with hl | ⟨hall, _⟩
    · exact Or.inl hl
    · rw [hall] at hnot
      cases hnot

theorem not_allFinished_of_get (l : List Task) (i : Nat) (t : Task)
    (ht : l[i]? = some t) (hpc : t.pc ≠ .finished) : allFinished l = false := by
  cases hall : allFinished l with
  | false => rfl
  | true => exact absurd (allFinished_get l i t hall ht) hpc

theorem parInv_stepTask (c : Context) (env : Collab) (ts : List String)
    (e0 : Option GoError) (i : Nat) (s s1 : State)
    (h : ParInv c env ts e0 s) (hs : stepTask env i s = some s1) :
    ParInv c env ts e0 s1 := by
  obtain ⟨t, p, ht, hne, htasks, hpc, hscr, hg, hfirst, hcnt, _, hp, hcalls, _, _⟩ :=
    stepTask_summary env i s s1 hs
  have hold := h.2.1
  refine parInv_task_update c env ts e0 s s1 h hg hpc hscr hfirst hcnt ?_ ?_
    (not_allFinished_of_get s.tasks i t ht hne)
  · rw [htasks]
    exact map_target_set_task s.tasks i t _ ht rfl
  · rw [htasks, hcalls]
    by_cases hst : t.pc.started = true
    · rw [if_pos hst, started_set_same s.tasks i t { t with pc := p } ht rfl hst hp]
      exact hold
    · rw [if_neg hst]
      have hst2 : t.started = false := by simpa [Task.started] using hst
      exact (List.Perm.append_right [t.target] hold).trans
        (started_set_new s.tasks i t { t with pc := p } ht rfl hst2 hp).symm

theorem parInv_step (c : Context) (env : Collab) (ts : List String)
    (e0 : Option GoError) (hpar : c.parallel = true) (ev : Event) (s s1 : State)
    (h : ParInv c env ts e0 s) (hs : step c env ev s = some s1) :
    ParInv c env ts e0 s1 := by
  cases ev with
  | main => exact parInv_stepMain c env ts e0 hpar s s1 h hs
  | task i => exact parInv_stepTask c env ts e0 i s s1 h hs

theorem parInv_exec (c : Context) (env : Collab) (hpar : c.parallel = true) (s0 : State)
    (hstart : start c env = .ok s0) (evs : List Event) (s : State)
    (hexec : exec c env evs s0 = some s) :
    ParInv c env (streamTargets c env)
      (if c.args.length > 0 then none else env.stdinFailure) s := by
  obtain ⟨scr, rfl, hd, hend⟩ := start_eq_initState c env s0 hstart
  refine exec_invariant c env _ ?_ evs _ s ?_ hexec
  · intro ev s2 s3 hinv hstep
    exact parInv_step c env _ _ hpar ev s2 s3 hinv hstep
  · rw [← hend]
    exact parInv_initState c env scr _ hd

/-! ## Lemmas: progress and termination -/

theorem stepMain_loopHead_enabled (c : Context) (env : Collab) (s : State)
    (hpc : s.pc = .loopHead) : ∃ s1, stepMain c env s = some s1 := by
  cases hsc : (s.scr.Scan).2 with
  | false => simp [stepMain, hpc, hsc]
  | true =>
    cases htx : ((s.scr.Scan).1).Text with
    | none => simp [stepMain, hpc, hsc, htx]
    | some t =>
      cases hp : c.parallel with
      | true => simp [stepMain, hpc, hsc, htx, hp]
      | false =>
        cases hr : (env.get s.g t).2 with
        | none => simp [stepMain, hpc, hsc, htx, hp, hr]
        | some e => simp [stepMain, hpc, hsc, htx, hp, hr]

theorem stepTask_enabled (env : Collab) (i : Nat) (s : State) (t : Task)
    (ht : s.tasks[i]? = some t) (hpc : t.pc ≠ .finished)
    (hsem : t.pc = .returned → 0 < s.sem) :
    ∃ s1, stepTask env i s = some s1 := by
  cases hp : t.pc with
  | spawned => simp [stepTask, ht, hp]
  | running => simp [stepTask, ht, hp]
  | gotResult => simp [stepTask, ht, hp]
  | storedInfo => simp [stepTask, ht, hp]
  | stored =>
    cases he : s.err with
    | none => simp [stepTask, ht, hp, he]
    | some e => simp [stepTask, ht, hp, he]
  | logging => simp [stepTask, ht, hp]
  | returned => simp [stepTask, ht, hp, hsem hp]
  | released => simp [stepTask, ht, hp]
  | finished => exact absurd hp hpc

theorem unfinished_enabled (env : Collab) (s : State) (h : SemInv s)
    (hall : allFinished s.tasks = false) : ∃ i s1, stepTask env i s = some s1 := by
  obtain ⟨h1, _⟩ := h
  obtain ⟨i, a, hi, hne⟩ := exists_unfinished s.tasks hall
  have hsem : a.pc = .returned → 0 < s.sem := by
    intro hret
    have hmem : a ∈ s.tasks := List.getElem?_mem hi
    have hpos : 0 < s.tasks.countP Task.holdsToken :=
      List.countP_pos_iff.mpr ⟨a, hmem, by simp [Task.holdsToken, TaskPc.holdsToken, hret]⟩
    omega
  obtain ⟨s1, hs1⟩ := stepTask_enabled env i s a hi hne hsem
  exact ⟨i, s1, hs1⟩

theorem countP_holdsToken_of_allFinished (l : List Task) (h : allFinished l = true) :
    l.countP Task.holdsToken = 0 := by
  rw [List.countP_eq_zero]
  intro a ha
  simp only [allFinished, List.all_eq_true] at h
  have := h a ha
  simp only [beq_iff_eq] at this
  simp [Task.holdsToken, TaskPc.holdsToken, this]

theorem stepMain_enabled (c : Context) (env : Collab) (s : State) (h : SemInv s)
    (hall : allFinished s.tasks = true) (hpc : ∀ o, s.pc ≠ .returned o) :
    ∃ s1, stepMain c env s = some s1 := by
  obtain ⟨h1, _⟩ := h
  cases hp : s.pc with
  | loopHead => exact stepMain_loopHead_enabled c env s hp
  | semSend t =>
    have h0 := countP_holdsToken_of_allFinished s.tasks hall
    simp only [hp] at h1
    have hlt : s.sem < semCap := by
      simp only [semCap]
      omega
    simp [stepMain, hp, hlt]
  | egGo t => simp [stepMain, hp]
  | errStore => simp [stepMain, hp]
  | errTest =>
    cases he : s.err with
    | none => simp [stepMain, hp, he]
    | some e => simp [stepMain, hp, he]
  | errWrap => simp [stepMain, hp]
  | egWait => simp [stepMain, hp, hall]
  | returned o => exact absurd hp (hpc o)

theorem step_enabled (c : Context) (env : Collab) (s : State) (h : SemInv s)
    (hpc : ∀ o, s.pc ≠ .returned o) : ∃ ev s1, step c env ev s = some s1 := by
  cases hall : allFinished s.tasks with
  | true =>
    obtain ⟨s1, hs1⟩ := stepMain_enabled c env s h hall hpc
    exact ⟨.main, s1, hs1⟩
  | false =>
    obtain ⟨i, s1, hs1⟩ := unfinished_enabled env s h hall
    exact ⟨.task i, s1, hs1⟩

theorem stepsLeft_stepMain (c : Context) (env : Collab) (s s1 : State)
    (hs : stepMain c env s = some s1) : stepsLeft s1 < stepsLeft s := by
  rcases stepMain_cases c env s s1 hs with
    ⟨hpc, hsc, rfl⟩ | ⟨hpc, hsc, htx, rfl⟩ | ⟨t, hpc, hsc, htx, _, rfl⟩
    | ⟨t, hpc, hsc, _, hp, _, rfl⟩ | ⟨t, e, hpc, hsc, _, hp, _, rfl⟩ | ⟨t, hpc, hlt, rfl⟩
    | ⟨t, hpc, rfl⟩ | ⟨hpc, rfl⟩ | ⟨e, hpc, herr, rfl⟩ | ⟨hpc, herr, rfl⟩ | ⟨hpc, rfl⟩
    | ⟨hpc, hall, rfl⟩
  · simp only [stepsLeft, mainLeft, hpc]
    omega
  · simp only [stepsLeft, mainLeft, hpc]
    omega
  · have := scanner.pending_Scan s.scr hsc
    simp only [stepsLeft, mainLeft, hpc]
    omega
  · have := scanner.pending_Scan s.scr hsc
    simp only [stepsLeft, mainLeft, hpc]
    omega
  · simp only [stepsLeft, mainLeft, hpc]
    omega
  · simp only [stepsLeft, mainLeft, hpc]
    omega
  · simp only [stepsLeft, mainLeft, hpc, List.map_append, List.sum_append, List.map_cons,
      List.map_nil, List.sum_cons, List.sum_nil, TaskPc.stepsLeft]
    omega
  · simp only [stepsLeft, mainLeft, hpc]
    omega
  · simp only [stepsLeft, mainLeft, hpc]
    omega
  · simp only [stepsLeft, mainLeft, hpc]
    omega
  · simp only [stepsLeft, mainLeft, hpc]
    omega
  · simp only [stepsLeft, mainLeft, hpc]
    omega

theorem stepsLeft_stepTask (env : Collab) (i : Nat) (s s1 : State)
    (hs : stepTask env i s = some s1) : stepsLeft s1 < stepsLeft s := by
  obtain ⟨t, p, ht, _, htasks, hpc, hscr, _, _, _, hlt, _, _, _, _⟩ :=
    stepTask_summary env i s s1 hs
  have hsum := sum_set_task (fun t => t.pc.stepsLeft) s.tasks i t { t with pc := p } ht
  simp only at hsum
  simp only [stepsLeft, mainLeft, hpc, hscr, htasks]
  omega

theorem stepsLeft_step (c : Context) (env : Collab) (ev : Event) (s s1 : State)
    (hs : step c env ev s = some s1) : stepsLeft s1 < stepsLeft s := by
  cases ev with
  | main => exact stepsLeft_stepMain c env s s1 hs
  | task i => exact stepsLeft_stepTask env i s s1 hs

/-! ## Lemmas: a run in which line 90 is reached with every goroutine finished -/

theorem quiet_stepTask (c : Context) (env : Collab) (i : Nat) (s s1 : State)
    (hq : Quiet c s) (hall : allFinished s.tasks = false) (hret : ∀ o, s.pc ≠ .returned o)
    (hs : stepTask env i s = some s1) : Quiet c s1 := by
  obtain ⟨t, p, _, _, _, hpc, _, _, _, _, _, _, _, _, _⟩ := stepTask_summary env i s s1 hs
  unfold Quiet at hq ⊢
  rw [hpc]
  cases hp : s.pc with
  | loopHead => trivial
  | semSend t => trivial
  | egGo t => trivial
  | errStore => trivial
  | errTest =>
    simp only [hp] at hq
    rw [hq.1] at hall
    cases hall
  | errWrap =>
    simp only [hp] at hq
  | egWait => trivial
  | returned o => exact absurd hp (hret o)

theorem quiet_stepMain (c : Context) (env : Collab) (ts : List String)
    (hpar : c.parallel = true) (s s1 : State) (hinv : ParInv c env ts none s)
    (hq : Quiet c s) (hall : allFinished s.tasks = true)
    (hs : stepMain c env s = some s1) : Quiet c s1 := by
  obtain ⟨_, _, _, _, hrest⟩ := hinv
  rcases stepMain_cases c env s s1 hs with
    ⟨hpc, hsc, rfl⟩ | ⟨hpc, hsc, htx, rfl⟩ | ⟨t, hpc, hsc, htx, _, rfl⟩
    | ⟨t, hpc, _, _, hp, _, rfl⟩ | ⟨t, e, hpc, _, _, hp, _, rfl⟩ | ⟨t, hpc, hlt, rfl⟩
    | ⟨t, hpc, rfl⟩ | ⟨hpc, rfl⟩ | ⟨e, hpc, herr, rfl⟩ | ⟨hpc, herr, rfl⟩ | ⟨hpc, rfl⟩
    | ⟨hpc, hall2, rfl⟩
  · trivial
  · simp only [hpc] at hrest
    obtain ⟨rest, hd, hend, hts⟩ := hrest
    obtain ⟨t, ts2, _, htx2, _, _⟩ := hd.of_Scan_true hsc
    rw [htx] at htx2
    cases htx2
  · trivial
  · rw [hpar] at hp
    cases hp
  · rw [hpar] at hp
    cases hp
  · trivial
  · trivial
  · simp only [hpc] at hrest
    exact ⟨hall, hrest.2⟩
  · simp only [Quiet, hpc] at hq
    rw [hq.2] at herr
    cases herr
  · trivial
  · simp only [Quiet, hpc] at hq
  · simp [Quiet, postRun]

theorem quiet_next (c : Context) (env : Collab) (ts : List String)
    (hpar : c.parallel = true) (s : State) (hsem : SemInv s)
    (hinv : ParInv c env ts none s) (hq : Quiet c s) (hret : ∀ o, s.pc ≠ .returned o) :
    ∃ ev s1, step c env ev s = some s1 ∧ SemInv s1 ∧ ParInv c env ts none s1
      ∧ Quiet c s1 := by
  cases hall : allFinished s.tasks with
  | true =>
    obtain ⟨s1, hs1⟩ := stepMain_enabled c env s hsem hall hret
    exact ⟨.main, s1, hs1, semInv_stepMain c env s s1 hsem hs1,
      parInv_stepMain c env ts none hpar s s1 hinv hs1,
      quiet_stepMain c env ts hpar s s1 hinv hq hall hs1⟩
  | false =>
    obtain ⟨i, s1, hs1⟩ := unfinished_enabled env s hsem hall
    exact ⟨.task i, s1, hs1, semInv_stepTask env i s s1 hsem hs1,
      parInv_stepTask c env ts none i s s1 hinv hs1,
      quiet_stepTask c env i s s1 hq hall hret hs1⟩

theorem quiet_completes (c : Context) (env : Collab) (ts : List String)
    (hpar : c.parallel = true) :
    ∀ (n : Nat) (s : State), stepsLeft s ≤ n → SemInv s → ParInv c env ts none s →
      Quiet c s →
      ∃ evs s1, exec c env evs s = some s1 ∧ s1.pc = .returned (postRun c s1)
        ∧ ParInv c env ts none s1 := by
  intro n
  induction n with
  | zero =>
    intro s hn hsem hinv hq
    by_cases hret : ∃ o, s.pc = .returned o
    · obtain ⟨o, ho⟩ := hret
      have : o = postRun c s := by simpa [Quiet, ho] using hq
      exact ⟨[], s, rfl, by rw [ho, this], hinv⟩
    · push_neg at hret
      obtain ⟨ev, s1, hs1, _, _, _⟩ := quiet_next c env ts hpar s hsem hinv hq hret
      have := stepsLeft_step c env ev s s1 hs1
      omega
  | succ n ih =>
    intro s hn hsem hinv hq
    by_cases hret : ∃ o, s.pc = .returned o
    · obtain ⟨o, ho⟩ := hret
      have : o = postRun c s := by simpa [Quiet, ho] using hq
      exact ⟨[], s, rfl, by rw [ho, this], hinv⟩
    · push_neg at hret
      obtain ⟨ev, s1, hs1, hsem1, hinv1, hq1⟩ :=
        quiet_next c env ts hpar s hsem hinv hq hret
      have hlt := stepsLeft_step c env ev s s1 hs1
      obtain ⟨evs, s2, hex, ho, hinv2⟩ := ih s1 (by omega) hsem1 hinv1 hq1
      exact ⟨ev :: evs, s2, by simp [exec, hs1, hex], ho, hinv2⟩

/-! ## Theorems: parallel mode -/

/-- C3: in every reachable state of a run of `doGet`, whatever the number of
targets, the number of `g.get` invocations started and not yet finished is at
most 6. -/
theorem parallel_inFlight_le_six (c : Context) (env : Collab) (s : State)
    (h : Reachable c env s) : inFlight s ≤ 6 := by
  obtain ⟨h1, h2⟩ := semInv_reachable c env s h
  have h3 := inFlight_le_holding s
  simp only [semCap] at h2
  omega

/-- Witness for C3: with seven targets, the state with six fetches in flight and
the loop blocked on the seventh send is reachable; the bound is attained there. -/
theorem parallel_inFlight_le_six_witness :
    inFlight busyState = 6 ∧ inFlight busyState ≤ 6 :=
  ⟨by decide,
    parallel_inFlight_le_six (ctxOf sevenTargets true false) envFailB busyState
      ⟨initState (mkGetter (ctxOf sevenTargets true false) envFailB)
          (.ofSlice (sliceScanner.fresh sevenTargets)),
        busySchedule, rfl, by decide⟩⟩

/-- C2, at the failing input: in parallel mode with the arguments `[A, B, C]`,
of which the fetch of `B` fails, and no read error on the input stream
(`scr.Err()` is nil), the goroutine of `B` stores its failure into the shared
`err` between the store and the test of line 90; `doGet` then returns the
error of line 91 built from that failure, before `eg.Wait()`, with `g.get`
invoked on `B` only and no goroutine finished. -/
theorem doGet_parallel_fetch_error_surfaces :
    start (ctxOf ["A", "B", "C"] true false) envFailB
        = .ok (initState (mkGetter (ctxOf ["A", "B", "C"] true false) envFailB)
            (.ofSlice (sliceScanner.fresh ["A", "B", "C"])))
    ∧ exec (ctxOf ["A", "B", "C"] true false) envFailB racySchedule
        (initState (mkGetter (ctxOf ["A", "B", "C"] true false) envFailB)
          (.ofSlice (sliceScanner.fresh ["A", "B", "C"]))) = some racyState
    ∧ racyState.scr.Err = none
    ∧ racyState.pc = .returned (.ret (some
        (.wrap "error occurred while reading input: boom" (.plain "boom"))))
    ∧ racyState.calls = ["B"]
    ∧ allFinished racyState.tasks = false :=
  ⟨rfl, by decide, rfl, by decide, by decide, by decide⟩

/-- C4, at the failing input: in parallel mode, reading standard input that
delivers `a` and then a read error, `doGet` returns the read error at line 91,
before `eg.Wait()`, while the fetch of `a` is still inside `g.get`. -/
theorem doGet_parallel_read_error_leaves_task_running :
    start (ctxOf [] true false) envFailB
        = .ok (initState (mkGetter (ctxOf [] true false) envFailB)
            (.ofStdin { lines := ["a"], token := "", failure := some (.plain "read failure"),
                        stopped := false }))
    ∧ exec (ctxOf [] true false) envFailB orphanSchedule
        (initState (mkGetter (ctxOf [] true false) envFailB)
          (.ofStdin { lines := ["a"], token := "", failure := some (.plain "read failure"),
                      stopped := false })) = some orphanState
    ∧ orphanState.pc = .returned (.ret (some
        (.wrap "error occurred while reading input: read failure" (.plain "read failure"))))
    ∧ inFlight orphanState = 1
    ∧ allFinished orphanState.tasks = false :=
  ⟨rfl, by decide, by decide, by decide, by decide⟩

/-! ## Theorems: the post-run selection -/

theorem pickFirst_of_ne (f : String) (l : List String) (hf : f ≠ "") :
    pickFirst f l = f := by
  induction l with
  | nil => rfl
  | cons x xs ih =>
    simp only [pickFirst, List.foldl_cons, if_neg hf] at ih ⊢
    exact ih

theorem pickFirst_all_empty (l : List String) (h : ∀ x ∈ l, x = "") :
    pickFirst "" l = "" := by
  induction l with
  | nil => rfl
  | cons x xs ih =>
    have hx : x = "" := h x (by simp)
    subst hx
    simpa [pickFirst] using ih (fun y hy => h y (by simp [hy]))

theorem pickFirst_stream (t : String) (rest : List String)
    (hcase : t ≠ "" ∨ ∀ x ∈ rest, x = "") : pickFirst "" (t :: rest) = t := by
  by_cases ht : t = ""
  · subst ht
    rcases hcase with h | h
    · exact absurd rfl h
    · exact pickFirst_all_empty _ (by intro x hx; simp at hx; rcases hx with rfl | hx
                                      · rfl
                                      · exact h x hx)
  · have : pickFirst "" (t :: rest) = pickFirst t rest := by simp [pickFirst]
    rw [this, pickFirst_of_ne t rest ht]

theorem mkGetter_bare (c : Context) (env : Collab) : (mkGetter c env).bare = c.bare := by
  unfold mkGetter
  split <;> split <;> rfl

theorem postRun_many (c : Context) (env : Collab) (fs : State) (t : String)
    (rest : List String) (hlook : c.look = true) (hrest : rest ≠ [])
    (hfirst : fs.firstArg = t) (hcnt : fs.argCnt = ((t :: rest).length : Int))
    (hg : fs.g = mkGetter c env) :
    postRun c fs = if t = "" then .ret none else .look t c.bare := by
  have hlen : 0 < rest.length := List.length_pos.mpr hrest
  have h1 : fs.argCnt > 1 := by
    rw [hcnt]
    simp only [List.length_cons]
    push_cast
    omega
  have h2 : ¬ fs.argCnt = 1 := by omega
  by_cases ht : t = ""
  · simp [postRun, hlook, hfirst, ht, h2]
  · simp [postRun, hlook, hfirst, ht, h1, hg, mkGetter_bare]

/-- Counterexample to C9 as stated: in parallel mode with `look` requested and
the targets `["", "b"]`, the run reaches the post-run selection and ends in
`look("b", false)`: the lookup name is the second target, not the first; and
with the targets `["", ""]` it ends in `return nil` without calling `look`. -/
theorem doGet_look_later_target_counterexample :
    (["", "b"] : List String).head? = some ""
    ∧ (exec (ctxOf ["", "b"] true true) envFailB scheduleTwo
        (initState (mkGetter (ctxOf ["", "b"] true true) envFailB)
          (.ofSlice (sliceScanner.fresh ["", "b"])))).map State.pc
        = some (.returned (.look "b" false))
    ∧ (exec (ctxOf ["", ""] true true) envFailB scheduleTwoFailing
        (initState (mkGetter (ctxOf ["", ""] true true) envFailB)
          (.ofSlice (sliceScanner.fresh ["", ""])))).map State.pc
        = some (.returned (.ret none)) :=
  ⟨rfl, by decide, by decide⟩

/-- C9, amended: with `look` requested and a stream of more than one target
that ends without a read error, if the first target `t` is not the empty
string, or every target is the empty string, then a run that reaches the
post-run selection ends in `look(t, bare)` with the first target `t` as the
lookup name when `t` is not empty, and in `return nil` without a lookup when
it is empty. This holds in sequential mode when every fetch succeeds. In
parallel mode some schedule brings the run to that end, and under every
schedule a run that has returned has either returned at line 91 with the error
built from `err`, without reaching the post-run selection, or has ended so. -/
theorem doGet_look_uses_first_target (c : Context) (env : Collab) (s0 : State)
    (t : String) (rest : List String)
    (hlook : c.look = true) (hstart : start c env = .ok s0)
    (hend : (if c.args.length > 0 then none else env.stdinFailure) = none)
    (hts : streamTargets c env = t :: rest) (hrest : rest ≠ [])
    (hcase : t ≠ "" ∨ ∀ x ∈ rest, x = "") :
    (c.parallel = false → (∀ x ∈ t :: rest, (env.get (mkGetter c env) x).2 = none) →
        doGet c env = some
          { outcome := if t = "" then .ret none else .look t c.bare, calls := t :: rest })
    ∧ (c.parallel = true →
        (∃ evs s, exec c env evs s0 = some s
            ∧ s.pc = .returned (if t = "" then .ret none else .look t c.bare))
        ∧ (∀ evs s o, exec c env evs s0 = some s → s.pc = .returned o →
            (∃ e, o = .ret (some (readingInputError e)))
              ∨ o = if t = "" then .ret none else .look t c.bare)) := by
  obtain ⟨scr, hs0, hd, hendErr⟩ := start_eq_initState c env s0 hstart
  rw [hts] at hd
  rw [hend] at hendErr
  have hpost : ∀ s : State, ParInv c env (t :: rest) none s →
      (∃ o, s.pc = .returned o) →
      postRun c s = if t = "" then .ret none else .look t c.bare := by
    intro s hinv hret
    obtain ⟨o, ho⟩ := hret
    obtain ⟨hg, _, hfirst, hcnt, hrest2⟩ := hinv
    simp only [ho] at hrest2
    obtain ⟨hcons, _⟩ := hrest2
    refine postRun_many c env s t rest hlook hrest ?_ ?_ hg
    · rw [hfirst, hcons, pickFirst_stream t rest hcase]
    · rw [hcnt, hcons]
  refine ⟨?_, ?_⟩
  · intro hpar hok
    subst hs0
    obtain ⟨hcalls, fs, hpc, hf, hcnt, hg, _, _⟩ := runMain_seq_ok c env hpar (t :: rest)
      (initState (mkGetter c env) scr) (scr.pending + 4) rfl rfl hd hendErr hok
      (by rw [hd.pending_eq])
    simp only [doGet, hstart]
    simp only [initState] at hcalls hpc hf hcnt hg ⊢
    rw [hpc, hcalls]
    have hpost := postRun_many c env fs t rest hlook hrest
      (by rw [hf, pickFirst_stream t rest hcase]) (by rw [hcnt]; simp) hg
    simp [hpost]
  · intro hpar
    refine ⟨?_, ?_⟩
    · have hsem : SemInv s0 := by
        rw [hs0]
        exact semInv_initState _ _
      have hinv : ParInv c env (t :: rest) none s0 := by
        rw [hs0, ← hendErr]
        exact parInv_initState c env scr _ hd
      have hq : Quiet c s0 := by
        rw [hs0]
        trivial
      obtain ⟨evs, s, hexec, ho, hinv2⟩ :=
        quiet_completes c env (t :: rest) hpar (stepsLeft s0) s0 (le_refl _) hsem hinv hq
      exact ⟨evs, s, hexec, by rw [ho, hpost s hinv2 ⟨_, ho⟩]⟩
    · intro evs s o hexec ho
      have hinv := parInv_exec c env hpar s0 hstart evs s hexec
      rw [hend, hts] at hinv
      have hinv2 := hinv
      obtain ⟨_, _, _, _, hrest2⟩ := hinv
      simp only [ho] at hrest2
      rcases hrest2.2 with hl | ⟨_, hp⟩
      · exact Or.inl hl
      · exact Or.inr (by rw [hp, hpost s hinv2 ⟨o, ho⟩])

/-- Witness for the amended C9: sequential mode, targets `[A, C]`, every fetch
succeeding: `doGet` ends in `look("A", false)`. -/
theorem doGet_look_uses_first_target_witness :
    doGet (ctxOf ["A", "C"] false true) envFailB = some
      { outcome := .look "A" false, calls := ["A", "C"] } :=
  (doGet_look_uses_first_target (ctxOf ["A", "C"] false true) envFailB
    (initState (mkGetter (ctxOf ["A", "C"] false true) envFailB)
      (.ofSlice (sliceScanner.fresh ["A", "C"])))
    "A" ["C"] rfl rfl rfl rfl (by decide) (Or.inl (by decide))).1 rfl (by decide)

end Ghq
